import Mathlib

/-!
Verification development for the `trivia-wizard-2` backend (Rust).

The definitions below are a shallow embedding of the game-model and handler
code under `src/backend/src/`.  Notes on the embedding:

* Rust `u32`/`usize` fields are modelled as `Nat`; `i32` score fields as
  `Int`.  All arithmetic performed by the embedded code on these values is
  far below the overflow bounds, and the speed-bonus division operates on
  non-negative operands, where Rust truncating division agrees with `Nat`
  division.
* `String::to_lowercase` / `eq_ignore_ascii_case` / `str::trim` are modelled
  by `lowerStr` / comparison of `lowerStr` images / `trimStr` below, which
  agree with the Rust functions on ASCII data (the standard-library
  `String.toLower` is defined by well-founded recursion and does not reduce
  in the kernel, so the embedding carries its own structural versions).
* Send channels (`Tx`) carry no game-relevant data; an `Option<Tx>`
  (`host_tx`) is modelled by a `Bool` recording its presence, and the timer
  task abort handle (`timer_abort_handle : Option<AbortHandle>`) by a `Bool`
  recording whether a handle is stored.
* Rust in-place mutation of `&mut self` becomes explicit state passing:
  every operation takes a `Game` and returns the updated `Game` (paired
  with the operation's return value).
* `Vec` indexing that the source performs without a bounds check is
  modelled with `List.getD` at call sites that the source only reaches with
  an in-range index (the game invariant `1 ≤ current_question_number ≤
  questions.len()` holds in all reachable states); the one *unchecked*
  index reachable with an out-of-range value
  (`Game::update_type_specific_settings`) is modelled with `Option`, `none`
  standing for the Rust panic.
-/

namespace Trivia

/-- ASCII lowercase of one character (`'A'..'Z'` map to `'a'..'z'`). -/
def lowerChar (c : Char) : Char :=
  if 65 ≤ c.toNat ∧ c.toNat ≤ 90 then Char.ofNat (c.toNat + 32) else c

/-- Rust `String::to_lowercase` (ASCII fragment). -/
def lowerStr (s : String) : String :=
  ⟨s.data.map lowerChar⟩

/-- ASCII whitespace, the fragment of Rust `char::is_whitespace` relevant
to the embedded data. -/
def isAsciiWs (c : Char) : Bool :=
  c = ' ' ∨ c = '\t' ∨ c = '\n' ∨ c = '\r'

/-- Rust `str::trim` (ASCII fragment): drop leading and trailing
whitespace. -/
def trimStr (s : String) : String :=
  ⟨((s.data.dropWhile isAsciiWs).reverse.dropWhile isAsciiWs).reverse⟩

/-- Rust `a.eq_ignore_ascii_case(b)` and the `a.to_lowercase() ==
b.to_lowercase()` comparisons used for team-name lookups in
`model/game.rs`. -/
def eqCI (a b : String) : Bool :=
  lowerStr a == lowerStr b

/-- `QuestionKind` from `model/types.rs`. -/
inductive QuestionKind where
  | standard
  | multiAnswer
  | multipleChoice
deriving DecidableEq

/-- `McOptionType` from `model/types.rs`. -/
inductive McOptionType where
  | letters
  | numbers
  | yesNo
  | trueFalse
  | other
deriving DecidableEq

/-- `McConfig` from `model/types.rs`. -/
structure McConfig where
  option_type : McOptionType
  num_options : Nat
  custom_options : Option (List String)
deriving DecidableEq

/-- `McConfig::default()`. -/
def McConfig.default : McConfig :=
  { option_type := .letters, num_options := 4, custom_options := none }

/-- `QuestionConfig` from `model/types.rs`. -/
inductive QuestionConfig where
  | standard
  | multiAnswer
  | multipleChoice (config : McConfig)
deriving DecidableEq

/-- `QuestionConfig::kind()` (used by `update_question_settings` and
`update_type_specific_settings`). -/
def QuestionConfig.kind : QuestionConfig → QuestionKind
  | .standard => .standard
  | .multiAnswer => .multiAnswer
  | .multipleChoice _ => .multipleChoice

/-- `ScoreData`.  The field set follows the revision used by
`model/game.rs` and the integration tests (which include
`speed_bonus_points`); all four components are Rust `i32`. -/
structure ScoreData where
  question_points : Int
  bonus_points : Int
  speed_bonus_points : Int
  override_points : Int
deriving DecidableEq

/-- `ScoreData::new()` / `ScoreData::default()`: all components zero. -/
def ScoreData.new : ScoreData :=
  { question_points := 0, bonus_points := 0, speed_bonus_points := 0,
    override_points := 0 }

/-- `AnswerContent` from `model/types.rs`. -/
inductive AnswerContent where
  | standard (answer_text : String)
  | multiAnswer (answers : List String)
  | multipleChoice (selected : String)
deriving DecidableEq

/-- `normalize_answer_text` from `model/game.rs`: trimmed, lowercased text
for Standard / MultipleChoice content; `none` for MultiAnswer or missing
content. -/
def normalize_answer_text : Option AnswerContent → Option String
  | some (.standard answer_text) => some (lowerStr (trimStr answer_text))
  | some (.multipleChoice selected) => some (lowerStr (trimStr selected))
  | _ => none

/-- `TeamQuestion` from `model/types.rs`. -/
structure TeamQuestion where
  team_name : String
  score : ScoreData
  content : Option AnswerContent
  question_kind : QuestionKind
  question_config : QuestionConfig
deriving DecidableEq

/-- `Question` from `model/types.rs`, with the `speed_bonus_enabled` field
required by `model/game.rs`. -/
structure Question where
  timer_duration : Nat
  question_points : Nat
  bonus_increment : Nat
  question_kind : QuestionKind
  question_config : QuestionConfig
  answers : List TeamQuestion
  speed_bonus_enabled : Bool
deriving DecidableEq

/-- `Question::has_answers()`. -/
def Question.has_answers (q : Question) : Bool :=
  !q.answers.isEmpty

/-- `Question::filter_for_team` from `model/types.rs` (note: the team-name
comparison there is the *exact* `==`, not the case-insensitive comparison
used elsewhere). -/
def Question.filter_for_team (q : Question) (team_name : String) : TeamQuestion :=
  match q.answers.find? (fun a => a.team_name == team_name) with
  | some a => a
  | none =>
      { team_name := team_name
        score := ScoreData.new
        content := none
        question_kind := q.question_kind
        question_config := q.question_config }

/-- `TeamColor` from `model/types.rs`. -/
structure TeamColor where
  hex_code : String
  name : String
deriving DecidableEq

/-- `TeamData` from `model/types.rs`. -/
structure TeamData where
  team_name : String
  team_members : List String
  team_color : TeamColor
  score : ScoreData
  connected : Bool
deriving DecidableEq

/-- `GameSettings`, with the speed-bonus fields required by
`model/game.rs`. -/
structure GameSettings where
  default_timer_duration : Nat
  default_question_points : Nat
  default_bonus_increment : Nat
  default_question_type : QuestionKind
  default_mc_config : McConfig
  speed_bonus_enabled : Bool
  speed_bonus_num_teams : Nat
  speed_bonus_first_place_points : Nat
deriving DecidableEq

/-- The hardcoded defaults at the top of `model/game.rs`. -/
def DEFAULT_TIMER_DURATION : Nat := 30
def DEFAULT_QUESTION_POINTS : Nat := 50
def DEFAULT_BONUS_INCREMENT : Nat := 5
def DEFAULT_SPEED_BONUS_ENABLED : Bool := false
def DEFAULT_SPEED_BONUS_NUM_TEAMS : Nat := 2
def DEFAULT_SPEED_BONUS_FIRST_PLACE_POINTS : Nat := 10

/-- The `Game` struct from `model/game.rs`.  `host_tx : Bool` models
`host_tx.is_some()`; `timer_task` models `timer_abort_handle.is_some()`.
The `teams_tx` map holds only channels and is dropped from the model. -/
structure Game where
  game_code : String
  host_tx : Bool
  current_question_number : Nat
  timer_running : Bool
  timer_seconds_remaining : Option Nat
  teams : List TeamData
  questions : List Question
  game_settings : GameSettings
  timer_task : Bool
deriving DecidableEq

/-- The initial question built in `Game::new`. -/
def initialQuestion : Question :=
  { timer_duration := DEFAULT_TIMER_DURATION
    question_points := DEFAULT_QUESTION_POINTS
    bonus_increment := DEFAULT_BONUS_INCREMENT
    question_kind := .standard
    question_config := .standard
    answers := []
    speed_bonus_enabled := DEFAULT_SPEED_BONUS_ENABLED }

/-- `Game::new`. -/
def Game.new (game_code : String) : Game :=
  { game_code := game_code
    host_tx := true
    current_question_number := 1
    timer_running := false
    timer_seconds_remaining := some DEFAULT_TIMER_DURATION
    teams := []
    questions := [initialQuestion]
    game_settings :=
      { default_timer_duration := DEFAULT_TIMER_DURATION
        default_question_points := DEFAULT_QUESTION_POINTS
        default_bonus_increment := DEFAULT_BONUS_INCREMENT
        default_question_type := .standard
        default_mc_config := McConfig.default
        speed_bonus_enabled := DEFAULT_SPEED_BONUS_ENABLED
        speed_bonus_num_teams := DEFAULT_SPEED_BONUS_NUM_TEAMS
        speed_bonus_first_place_points := DEFAULT_SPEED_BONUS_FIRST_PLACE_POINTS }
    timer_task := false }

/-- `Game::find_team` (case-insensitive lookup via `to_lowercase`). -/
def Game.find_team (g : Game) (team_name : String) : Option TeamData :=
  g.teams.find? (fun t => eqCI t.team_name team_name)

/-- Apply `f` to the first list element satisfying `p`; the write-through
of a successful `find_team_mut`.  Elements after the first match are left
alone, as with `Iterator::find`. -/
def updateFirst {α : Type} (p : α → Bool) (f : α → α) : List α → List α
  | [] => []
  | x :: xs => if p x then f x :: xs else x :: updateFirst p f xs

/-- `Game::find_team_mut` followed by a field update. -/
def Game.updateTeam (g : Game) (team_name : String) (f : TeamData → TeamData) : Game :=
  { g with teams := updateFirst (fun t => eqCI t.team_name team_name) f g.teams }

/-- `Game::add_team` (without the `teams_tx` bookkeeping, which carries no
game data).  Reconnection updates the existing record; otherwise a fresh
team with a zeroed score is appended. -/
def Game.add_team (g : Game) (team_name : String) (team_color : TeamColor)
    (team_members : List String) : Game :=
  if (g.find_team team_name).isSome then
    g.updateTeam team_name (fun t =>
      { t with connected := true, team_members := team_members,
               team_color := team_color })
  else
    { g with teams := g.teams ++
        [{ team_name := team_name, team_members := team_members,
           team_color := team_color, score := ScoreData.new,
           connected := true }] }

/-- `Game::current_question` (`self.questions[self.current_question_number - 1]`).
The source indexes unconditionally; every reachable state satisfies
`1 ≤ current_question_number ≤ questions.len()`, so the `getD` default is
never read there. -/
def Game.currentQuestion (g : Game) : Question :=
  g.questions.getD (g.current_question_number - 1) initialQuestion

/-- Replace the current question (the write half of `current_question_mut`). -/
def Game.setCurrentQuestion (g : Game) (q : Question) : Game :=
  { g with questions := g.questions.set (g.current_question_number - 1) q }

/-- `GameState` from `model/server_message.rs` (the host wire view). -/
structure GameState where
  game_code : String
  current_question_number : Nat
  timer_running : Bool
  timer_seconds_remaining : Option Nat
  teams : List TeamData
  questions : List Question
  game_settings : GameSettings
deriving DecidableEq

/-- `TeamGameState` from `model/server_message.rs` (the filtered team wire
view). -/
structure TeamGameState where
  game_code : String
  current_question_number : Nat
  timer_running : Bool
  timer_seconds_remaining : Option Nat
  team : TeamData
  questions : List TeamQuestion
deriving DecidableEq

/-- `Game::to_game_state`. -/
def Game.to_game_state (g : Game) : GameState :=
  { game_code := g.game_code
    current_question_number := g.current_question_number
    timer_running := g.timer_running
    timer_seconds_remaining := g.timer_seconds_remaining
    teams := g.teams
    questions := g.questions
    game_settings := g.game_settings }

/-- `Game::to_team_game_state`. -/
def Game.to_team_game_state (g : Game) (team_name : String) : Option TeamGameState :=
  match g.find_team team_name with
  | none => none
  | some team =>
      some
        { game_code := g.game_code
          current_question_number := g.current_question_number
          timer_running := g.timer_running
          timer_seconds_remaining := g.timer_seconds_remaining
          team := team
          questions := g.questions.map (fun q => q.filter_for_team team_name) }

/-- `Game::create_question_from_settings`. -/
def Game.create_question_from_settings (g : Game) : Question :=
  let question_config : QuestionConfig :=
    match g.game_settings.default_question_type with
    | .standard => .standard
    | .multiAnswer => .multiAnswer
    | .multipleChoice => .multipleChoice g.game_settings.default_mc_config
  { timer_duration := g.game_settings.default_timer_duration
    question_points := g.game_settings.default_question_points
    bonus_increment := g.game_settings.default_bonus_increment
    question_kind := g.game_settings.default_question_type
    question_config := question_config
    answers := []
    speed_bonus_enabled := g.game_settings.speed_bonus_enabled }

/-- `Game::stop_timer`: abort any stored timer task and close submissions. -/
def Game.stop_timer (g : Game) : Game :=
  { g with timer_task := false, timer_running := false }

/-- `Game::next_question`. -/
def Game.next_question (g : Game) : Game :=
  let g := g.stop_timer
  let g := { g with current_question_number := g.current_question_number + 1 }
  let g :=
    if g.current_question_number > g.questions.length then
      { g with questions := g.questions ++ [g.create_question_from_settings] }
    else g
  { g with timer_seconds_remaining := some g.currentQuestion.timer_duration }

/-- `Game::prev_question`. -/
def Game.prev_question (g : Game) : Except String Game :=
  if g.current_question_number ≤ 1 then
    .error "Already at first question"
  else
    let g := g.stop_timer
    let g := { g with current_question_number := g.current_question_number - 1 }
    .ok { g with timer_seconds_remaining := some g.currentQuestion.timer_duration }

/-- `Game::calculate_speed_bonus`.  The `i32` arithmetic of the source acts
on non-negative operands, where truncating division coincides with `Nat`
division. -/
def calculate_speed_bonus (place num_teams first_place_points : Nat) : Int :=
  if place ≥ num_teams then 0
  else
    let remaining := num_teams - place
    ((first_place_points * remaining) / num_teams : Nat)

/-- The `speed_bonus_enabled = false` loop of
`Game::recalculate_speed_bonuses`: clear every non-zero
`speed_bonus_points`, recording the affected team names in iteration
order. -/
def clearSpeedWalk : List TeamQuestion → List TeamQuestion × List String
  | [] => ([], [])
  | a :: rest =>
      let r := clearSpeedWalk rest
      if a.score.speed_bonus_points ≠ 0 then
        ({ a with score := { a.score with speed_bonus_points := 0 } } :: r.1,
         a.team_name :: r.2)
      else (a :: r.1, r.2)

/-- The main loop of `Game::recalculate_speed_bonuses`: walk the answers in
submission order with the running `place` counter, writing each answer's
new speed bonus and recording the team names whose value changed. -/
def speedWalk (num_teams first_place_points : Nat) :
    Nat → List TeamQuestion → List TeamQuestion × List String
  | _, [] => ([], [])
  | place, a :: rest =>
      let new_speed_bonus :=
        if a.score.question_points > 0 then
          calculate_speed_bonus place num_teams first_place_points
        else 0
      let place' :=
        if a.score.question_points > 0 then place + 1 else place
      let r := speedWalk num_teams first_place_points place' rest
      if a.score.speed_bonus_points ≠ new_speed_bonus then
        ({ a with score := { a.score with speed_bonus_points := new_speed_bonus } } :: r.1,
         a.team_name :: r.2)
      else (a :: r.1, r.2)

/-- `Game::recalculate_speed_bonuses`.  Returns the updated game and the
list of team names whose answers changed. -/
def Game.recalculate_speed_bonuses (g : Game) (question_idx : Nat) :
    Game × List String :=
  let num_teams := g.game_settings.speed_bonus_num_teams
  let first_place_points := g.game_settings.speed_bonus_first_place_points
  let q := g.questions.getD question_idx initialQuestion
  if !q.speed_bonus_enabled then
    let r := clearSpeedWalk q.answers
    ({ g with questions := g.questions.set question_idx { q with answers := r.1 } },
     r.2)
  else
    let r := speedWalk num_teams first_place_points 0 q.answers
    ({ g with questions := g.questions.set question_idx { q with answers := r.1 } },
     r.2)

/-- `Game::recalculate_team_score`: re-derive a team's aggregate
`question_points` / `bonus_points` / `speed_bonus_points` from its answers
(first case-insensitive match per question), leaving `override_points`
untouched. -/
def Game.recalculate_team_score (g : Game) (team_name : String) : Game :=
  let totals :=
    g.questions.foldl
      (fun (acc : Int × Int × Int) q =>
        match q.answers.find? (fun a => eqCI a.team_name team_name) with
        | some a =>
            (acc.1 + a.score.question_points,
             acc.2.1 + a.score.bonus_points,
             acc.2.2 + a.score.speed_bonus_points)
        | none => acc)
      (0, 0, 0)
  g.updateTeam team_name (fun t =>
    { t with score :=
        { t.score with
            question_points := totals.1
            bonus_points := totals.2.1
            speed_bonus_points := totals.2.2 } })

/-- `Game::add_answer`.  Returns the updated game and the Rust `bool`
result (`false` when the team already submitted or the question is
MultiAnswer). -/
def Game.add_answer (g : Game) (team_name : String) (answer_text : String) :
    Game × Bool :=
  let question := g.currentQuestion
  if question.answers.any (fun a => eqCI a.team_name team_name) then
    (g, false)
  else
    match question.question_kind with
    | .multiAnswer => (g, false)
    | kind =>
        let content : AnswerContent :=
          match kind with
          | .multipleChoice => .multipleChoice answer_text
          | _ => .standard answer_text
        let question_base_points : Int := question.question_points
        let normalized_new := lowerStr (trimStr answer_text)
        let auto_score : Option (Int × Int) :=
          question.answers.findSome? (fun existing =>
            if existing.score.question_points = question_base_points then
              match normalize_answer_text existing.content with
              | some existing_text =>
                  if existing_text = normalized_new then
                    some (question_base_points, existing.score.bonus_points)
                  else none
              | none => none
            else none)
        let new_score : ScoreData :=
          match auto_score with
          | some (qp, bp) =>
              { ScoreData.new with question_points := qp, bonus_points := bp }
          | none => ScoreData.new
        let g :=
          g.setCurrentQuestion
            { question with
                answers := question.answers ++
                  [{ team_name := team_name, score := new_score,
                     content := some content,
                     question_kind := question.question_kind,
                     question_config := question.question_config }] }
        if auto_score.isSome then
          let question_idx := g.current_question_number - 1
          let r := g.recalculate_speed_bonuses question_idx
          let g := r.1
          let speed_bonus_teams := r.2
          let g := g.recalculate_team_score team_name
          let g :=
            speed_bonus_teams.foldl
              (fun g team =>
                if team ≠ team_name then g.recalculate_team_score team else g)
              g
          (g, true)
        else (g, true)

/-- The propagation loop of `Game::score_answer`: every answer other than
the target whose normalized text equals the target's and whose
`question_points`/`bonus_points` differ from the incoming score is
overwritten, and its team name recorded.  `i` is the index of the head of
the remaining list. -/
def syncMatching (score : ScoreData) (normalized_text : String) (answer_idx : Nat) :
    Nat → List TeamQuestion → List TeamQuestion × List String
  | _, [] => ([], [])
  | i, a :: rest =>
      let r := syncMatching score normalized_text answer_idx (i + 1) rest
      if i ≠ answer_idx then
        match normalize_answer_text a.content with
        | some other_text =>
            if other_text = normalized_text ∧
                (a.score.question_points ≠ score.question_points ∨
                 a.score.bonus_points ≠ score.bonus_points) then
              ({ a with score :=
                   { a.score with
                       question_points := score.question_points
                       bonus_points := score.bonus_points } } :: r.1,
               a.team_name :: r.2)
            else (a :: r.1, r.2)
        | none => (a :: r.1, r.2)
      else (a :: r.1, r.2)

/-- `if !teams_to_update.contains(&t) { teams_to_update.push(t) }` (exact
string comparison, as in the source). -/
def addUnique (teams : List String) (t : String) : List String :=
  if teams.contains t then teams else teams ++ [t]

/-- `Game::score_answer`.  The source computes `question_number - 1` on a
`usize`; the embedding is stated for the checked range `question_number ≥ 1`
(at `question_number = 0` the Rust subtraction overflows). -/
def Game.score_answer (g : Game) (question_number : Nat) (team_name : String)
    (score : ScoreData) : Game × Bool :=
  let question_idx := question_number - 1
  if question_idx ≥ g.questions.length then (g, false)
  else
    let question := g.questions.getD question_idx initialQuestion
    match question.answers.findIdx? (fun a => eqCI a.team_name team_name) with
    | none => (g, false)
    | some answer_idx =>
        let target := question.answers.getD answer_idx
          { team_name := team_name, score := ScoreData.new, content := none,
            question_kind := question.question_kind,
            question_config := question.question_config }
        let current_speed_bonus := target.score.speed_bonus_points
        let target' :=
          { target with score := { score with speed_bonus_points := current_speed_bonus } }
        let question := { question with answers := question.answers.set answer_idx target' }
        let g := { g with questions := g.questions.set question_idx question }
        match normalize_answer_text target'.content with
        | none =>
            let r := g.recalculate_speed_bonuses question_idx
            let g := r.1
            let teams_to_update := r.2.foldl addUnique [team_name]
            let g := teams_to_update.foldl Game.recalculate_team_score g
            (g, true)
        | some normalized_text =>
            let sync := syncMatching score normalized_text answer_idx 0 question.answers
            let question' := { question with answers := sync.1 }
            let g := { g with questions := g.questions.set question_idx question' }
            let teams_to_update := team_name :: sync.2
            let r := g.recalculate_speed_bonuses question_idx
            let g := r.1
            let teams_to_update := r.2.foldl addUnique teams_to_update
            let g := teams_to_update.foldl Game.recalculate_team_score g
            (g, true)

/-- `Game::clear_answer_score`. -/
def Game.clear_answer_score (g : Game) (question_number : Nat) (team_name : String) :
    Game × Bool :=
  g.score_answer question_number team_name ScoreData.new

/-- `Game::override_team_score`. -/
def Game.override_team_score (g : Game) (team_name : String)
    (override_points : Int) : Game × Bool :=
  if (g.find_team team_name).isSome then
    (g.updateTeam team_name (fun t =>
       { t with score := { t.score with override_points := override_points } }),
     true)
  else (g, false)

/-- `Game::update_game_settings`. -/
def Game.update_game_settings (g : Game) (settings : GameSettings) : Game :=
  let default_question_config : QuestionConfig :=
    match settings.default_question_type with
    | .standard => .standard
    | .multiAnswer => .multiAnswer
    | .multipleChoice => .multipleChoice settings.default_mc_config
  let g := { g with game_settings := settings }
  let g :=
    { g with questions :=
        g.questions.map (fun question =>
          if !question.has_answers then
            { question with
                timer_duration := settings.default_timer_duration
                question_points := settings.default_question_points
                bonus_increment := settings.default_bonus_increment
                question_kind := settings.default_question_type
                question_config := default_question_config
                speed_bonus_enabled := settings.speed_bonus_enabled }
          else question) }
  let current_q := g.questions.getD (g.current_question_number - 1) initialQuestion
  if !current_q.has_answers && !g.timer_running then
    { g with timer_seconds_remaining := some settings.default_timer_duration }
  else g

/-- `Game::update_question_settings`.  Stated for `question_number ≥ 1`
(the `usize` subtraction at 0 overflows in the source). -/
def Game.update_question_settings (g : Game) (question_number : Nat)
    (timer_duration question_points bonus_increment : Nat)
    (question_type : QuestionKind) (speed_bonus_enabled : Bool) :
    Except String Game :=
  let question_idx := question_number - 1
  if question_idx ≥ g.questions.length then
    .error "Question does not exist"
  else
    let question := g.questions.getD question_idx initialQuestion
    if question.has_answers then
      .error "Cannot update settings for a question that has answers"
    else
      let question :=
        { question with
            timer_duration := timer_duration
            question_points := question_points
            bonus_increment := bonus_increment
            question_kind := question_type
            speed_bonus_enabled := speed_bonus_enabled }
      let question :=
        if question.question_config.kind ≠ question.question_kind then
          { question with question_config :=
              match question_type with
              | .standard => .standard
              | .multiAnswer => .multiAnswer
              | .multipleChoice => .multipleChoice McConfig.default }
        else question
      let g := { g with questions := g.questions.set question_idx question }
      if question_number = g.current_question_number && !g.timer_running then
        .ok { g with timer_seconds_remaining := some timer_duration }
      else
        .ok g

/-- `Game::update_type_specific_settings`.  The source indexes
`self.questions[question_number - 1]` with **no bounds check**; an
out-of-range question number panics.  The outer `Option` models this:
`none` is the panic, `some` the function's `Result`. -/
def Game.update_type_specific_settings (g : Game) (question_number : Nat)
    (question_config : QuestionConfig) : Option (Except String Game) :=
  let question_idx := question_number - 1
  match g.questions[question_idx]? with
  | none => none
  | some question =>
      if question.has_answers then
        some (.error "Cannot update settings for a question that has answers")
      else if question_config.kind ≠ question.question_kind then
        some (.error "Config type does not match question type")
      else
        let question' := { question with question_config := question_config }
        some (.ok { g with questions := g.questions.set question_idx question' })

/-- `Game::set_team_connected`. -/
def Game.set_team_connected (g : Game) (team_name : String) (connected : Bool) :
    Game × Bool :=
  if (g.find_team team_name).isSome then
    (g.updateTeam team_name (fun t => { t with connected := connected }), true)
  else (g, false)

/-!
## Timer subsystem (`game_timer.rs`)

The handlers below embed the state mutation each handler performs on the
game under the registry lock (the broadcasts carry copies of the state and
do not mutate it).  `timer_task` records whether a tick task exists /
an abort handle is stored.
-/

/-- The locked state update of `handle_start_timer` (lines 39-65 plus the
abort-handle store at lines 148-153): cancel any stored task, set the
remaining seconds from the client-supplied value (or default a missing/zero
value to 30), open submissions, and spawn a tick task iff the resulting
remaining seconds are positive. -/
def handle_start_timer (g : Game) (seconds : Option Nat) : Game :=
  let g := { g with timer_task := false }
  let g :=
    match seconds with
    | some secs => { g with timer_seconds_remaining := some secs }
    | none =>
        if g.timer_seconds_remaining = none ∨ g.timer_seconds_remaining = some 0 then
          { g with timer_seconds_remaining := some 30 }
        else g
  let g := { g with timer_running := true }
  let should_spawn := g.timer_seconds_remaining.getD 0 > 0
  if should_spawn then { g with timer_task := true } else g

/-- One iteration of the tick task's locked section (`handle_start_timer`,
lines 86-124): if the timer is running with a positive remaining count,
decrement it; on reaching zero close submissions and clear the task
handle.  In every exit branch (not running / no value / already zero) the
task leaves the state untouched. -/
def timer_tick (g : Game) : Game :=
  if !g.timer_running then g
  else
    match g.timer_seconds_remaining with
    | none => g
    | some remaining =>
        if remaining = 0 then g
        else
          let new_remaining := remaining - 1
          let g := { g with timer_seconds_remaining := some new_remaining }
          if new_remaining = 0 then
            { g with timer_running := false, timer_task := false }
          else g

/-- The locked state update of `handle_pause_timer`: cancel the task and
close submissions, preserving the remaining seconds. -/
def handle_pause_timer (g : Game) : Game :=
  { g with timer_task := false, timer_running := false }

/-- The locked state update of `handle_reset_timer` (lines 183-207): cancel
the task, set the remaining seconds to the hardcoded default `Some(30)`,
and close submissions. -/
def handle_reset_timer (g : Game) : Game :=
  { g with timer_task := false, timer_seconds_remaining := some 30,
           timer_running := false }

/-!
## Team handler (`handler/team.rs`)
-/

/-- `TeamAction` from `model/client_message.rs`.  Payload fields that the
handler ignores are kept for fidelity of the wire shape. -/
inductive TeamAction where
  | validateJoin (team_name game_code : String)
  | joinGame (team_name game_code color_hex color_name : String)
      (team_members : List String)
  | submitAnswer (team_name answer : String)
deriving DecidableEq

/-- `ServerMessage` from `model/server_message.rs` (the variants the
embedded handlers construct). -/
inductive ServerMessage where
  | gameState (state : GameState)
  | teamGameState (state : TeamGameState)
  | joinValidated
  | timerTick (seconds_remaining : Nat)
  | error (message : String) (state : Option GameState)
deriving DecidableEq

/-- `ServerMessage::error` (no rollback state). -/
def ServerMessage.mkError (message : String) : ServerMessage :=
  .error message none

/-- `TeamActionResult` from `handler/team.rs`: the reply for the submitting
team and the optional message for the host (present iff a host channel is
attached). -/
structure TeamActionResult where
  team_msg : ServerMessage
  host_msg : Option ServerMessage
deriving DecidableEq

/-- `process_team_action` from `handler/team.rs` (lines 108-147), the
team-action dispatch run under the registry lock.  Note that the
`SubmitAnswer` arm calls `Game::add_answer` directly, with no check of
`timer_running`. -/
def process_team_action (action : TeamAction) (g : Game) (team_name : String) :
    Game × TeamActionResult :=
  match action with
  | .validateJoin _ _ =>
      (g, { team_msg := .mkError "Already validated", host_msg := none })
  | .joinGame _ _ _ _ _ =>
      (g, { team_msg := .mkError "Game already joined", host_msg := none })
  | .submitAnswer _ answer =>
      let r := g.add_answer team_name answer
      let g := r.1
      let ok := r.2
      if !ok then
        (g, { team_msg := .mkError "Answer already submitted", host_msg := none })
      else
        let team_msg :=
          match g.to_team_game_state team_name with
          | some state => ServerMessage.teamGameState state
          | none => ServerMessage.mkError "Failed to get team state"
        let host_msg :=
          if g.host_tx then some (ServerMessage.gameState g.to_game_state)
          else none
        (g, { team_msg := team_msg, host_msg := host_msg })

/-!
## Auth gate and host dispatch (`server.rs`, `handle_connection`)

`infra::is_local` / `infra::is_test` are not present in the `src/`
snapshot (only this caller is); they are environment predicates and are
modelled as boolean parameters.
-/

/-- `AuthResult` from `auth.rs`. -/
structure AuthResult where
  user_id : String
  is_host : Bool
deriving DecidableEq

/-- The authentication phase of `handle_connection` (lines 82-111): in
local dev mode outside tests the auth result is pre-seeded as the
`local-dev` host before any token handling, and the handshake callback
validates a token only when not skipping auth.  `validate` models
`app_state.validator.validate`. -/
def auth_after_handshake (skip_auth : Bool) (token : Option String)
    (validate : String → Except String AuthResult) : Option AuthResult :=
  let auth_result : Option AuthResult :=
    if skip_auth then some { user_id := "local-dev", is_host := true } else none
  if !skip_auth then
    match token with
    | some t =>
        match validate t with
        | .ok result => some result
        | .error _ => auth_result
    | none => auth_result
  else auth_result

/-- The three host-action authorization branches of `handle_connection`
(lines 125-158). -/
inductive HostDispatch where
  | allowed (user_id : String)
  | notAuthorized
  | authRequired
deriving DecidableEq

/-- The `match &auth_result` dispatch for a first-frame host action. -/
def host_dispatch (auth_result : Option AuthResult) : HostDispatch :=
  match auth_result with
  | some auth => if auth.is_host then .allowed auth.user_id else .notAuthorized
  | none => .authRequired

/-!
## Shared concrete data for evaluation theorems
-/

/-- A throwaway team colour for concrete games. -/
def demoColor : TeamColor := { hex_code := "#ffffff", name := "Custom" }

/-- A default `TeamQuestion` for `List.getD` in theorem statements. -/
def dAns : TeamQuestion :=
  { team_name := "", score := ScoreData.new, content := none,
    question_kind := .standard, question_config := .standard }

/-- Discriminator for `ServerMessage::TeamGameState`. -/
def ServerMessage.isTeamState : ServerMessage → Bool
  | .teamGameState _ => true
  | _ => false

/-- Does a settings call return exactly this error message? -/
def isErrorMsg (r : Except String Game) (msg : String) : Bool :=
  match r with
  | .error m => m == msg
  | .ok _ => false

/-- A game whose (unanswered) first question was given a 60-second timer
via `update_question_settings`. -/
def sixtySecondGame : Game :=
  match (Game.new "ABCD").update_question_settings 1 60 50 5 .standard false with
  | .ok g => g
  | .error _ => Game.new "ABCD"

/-!
## Claim theorems
-/

/-- C1: the claim says a `SubmitAnswer` processed while `timerRunning =
false` is rejected with the error "Submissions are closed" and leaves the
game unchanged.  The `process_team_action` of `handler/team.rs` has no
`timer_running` check at all: evaluating it on a fresh game (timer
stopped) with a joined team shows the answer being appended and a
`TeamGameState` reply, not the error, contradicting the repository's own
integration test `team_submission_rejected_when_submissions_closed` and
the doc comment in `model/server_message.rs`. -/
theorem submit_answer_accepted_while_timer_stopped :
    ((Game.new "ABCD").add_team "Alpha" demoColor []).timer_running = false ∧
    ((process_team_action (.submitAnswer "Alpha" "42")
        ((Game.new "ABCD").add_team "Alpha" demoColor []) "Alpha").1.currentQuestion.answers.map
       (fun a => a.team_name)) = ["Alpha"] ∧
    ((process_team_action (.submitAnswer "Alpha" "42")
        ((Game.new "ABCD").add_team "Alpha" demoColor []) "Alpha").2.team_msg ≠
      ServerMessage.mkError "Submissions are closed") ∧
    ((process_team_action (.submitAnswer "Alpha" "42")
        ((Game.new "ABCD").add_team "Alpha" demoColor []) "Alpha").2.team_msg.isTeamState
      = true) := by
  refine ⟨rfl, by decide, by decide, by decide⟩

/-- C7: the claim says `updateTypeSpecificSettings` returns an error
(rather than crashing) when the addressed question does not exist.
`Game::update_type_specific_settings` indexes `questions[question_number -
1]` without a bounds check, so a missing question panics (modelled by
`none`) instead of producing the error `Result`; its sibling
`update_question_settings` performs the check the claim describes. -/
theorem update_type_specific_settings_panics_on_missing_question :
    (Game.new "ABCD").questions.length = 1 ∧
    ((Game.new "ABCD").update_type_specific_settings 2 .standard).isNone = true ∧
    isErrorMsg ((Game.new "ABCD").update_question_settings 2 30 50 5 .standard false)
      "Question does not exist" = true := by
  refine ⟨rfl, by decide, by decide⟩

/-- C8 (counterexample): the claim says `resetTimer` sets
`timerSecondsRemaining` to the current question's `timerDuration`.  On a
game whose (unanswered) first question was given a 60-second duration via
`update_question_settings`, `handle_reset_timer` instead writes the
hardcoded `Some(30)`. -/
theorem reset_timer_ignores_question_duration :
    sixtySecondGame.currentQuestion.timer_duration = 60 ∧
    (handle_reset_timer sixtySecondGame).timer_seconds_remaining = some 30 ∧
    (handle_reset_timer sixtySecondGame).timer_seconds_remaining ≠
      some sixtySecondGame.currentQuestion.timer_duration := by
  refine ⟨by decide, by decide, by decide⟩

/-- C8 (amended): after `handle_reset_timer` the timer task is cancelled,
`timer_running = false`, and `timer_seconds_remaining` is the hardcoded
default `Some(30)` — not the current question's `timerDuration`. -/
theorem reset_timer_stops_and_sets_default :
    ∀ g : Game,
      (handle_reset_timer g).timer_task = false ∧
      (handle_reset_timer g).timer_running = false ∧
      (handle_reset_timer g).timer_seconds_remaining = some 30 :=
  fun _ => ⟨rfl, rfl, rfl⟩

/-- C9: the claim says the team-view projection is case-insensitive in its
per-question answer lookup.  `Question::filter_for_team` compares team
names with the exact `==`: building the view for `"myteam"` of a game
whose team `"MyTeam"` submitted an answer yields `content = none` for that
question, while the exact-case name yields the answer — contradicting the
repository's own test `team_with_capital_letters_scores_correctly`
(`team_name_case_test.rs`), which requires the broadcast under the
lowercased channel key to carry the answer. -/
theorem team_view_drops_answer_for_case_variant_name :
    ((((Game.new "ABCD").add_team "MyTeam" demoColor []).add_answer
        "MyTeam" "Test Answer").1.currentQuestion.answers.map (fun a => a.team_name)
      = ["MyTeam"]) ∧
    (((((Game.new "ABCD").add_team "MyTeam" demoColor []).add_answer
        "MyTeam" "Test Answer").1.to_team_game_state "myteam").map
       (fun st => st.questions.map (fun q => q.content)) = some [none]) ∧
    (((((Game.new "ABCD").add_team "MyTeam" demoColor []).add_answer
        "MyTeam" "Test Answer").1.to_team_game_state "MyTeam").map
       (fun st => st.questions.map (fun q => q.content))
      = some [some (AnswerContent.standard "Test Answer")]) := by
  refine ⟨by decide, by decide, by decide⟩

/-- C10: in local dev mode outside tests (`is_local() && !is_test()`),
`handle_connection` pre-seeds the auth result as the `local-dev` host
before any token handling, the handshake callback skips validation, and a
first-frame host action is dispatched to the authorized branch — the
"Authentication required for host actions" branch is unreachable
regardless of the token or validator outcome.  (`infra::is_local` /
`infra::is_test` are modelled as boolean parameters; the decision logic is
`server.rs` lines 82-158.) -/
theorem local_mode_grants_host_access :
    ∀ (is_local is_test : Bool) (token : Option String)
      (validate : String → Except String AuthResult),
      is_local = true → is_test = false →
      auth_after_handshake (is_local && !is_test) token validate
          = some { user_id := "local-dev", is_host := true } ∧
      host_dispatch (auth_after_handshake (is_local && !is_test) token validate)
          = .allowed "local-dev" := by
  rintro _ _ token validate rfl rfl
  simp [auth_after_handshake, host_dispatch]

/-- Witness for C10 at a token-free connection and an always-failing
validator. -/
theorem local_mode_grants_host_access_witness :
    auth_after_handshake (true && !false) none (fun _ => .error "invalid")
        = some { user_id := "local-dev", is_host := true } :=
  (local_mode_grants_host_access true false none (fun _ => .error "invalid")
    rfl rfl).1

/-!
## C6: the timer invariant
-/

/-- The timer operations named by the claim: `startTimer` (with the
client-supplied seconds value of the `StartTimer { seconds }` wire
action), `pauseTimer`, `resetTimer`, one tick-task decrement, and the two
navigation actions. -/
inductive TimerOp where
  | start (seconds : Option Nat)
  | pause
  | reset
  | tick
  | next
  | prev
deriving DecidableEq

/-- Apply a timer operation to the game state (navigation falling back to
the unchanged state when `prev_question` errors at question 1). -/
def applyTimerOp (g : Game) : TimerOp → Game
  | .start seconds => handle_start_timer g seconds
  | .pause => handle_pause_timer g
  | .reset => handle_reset_timer g
  | .tick => timer_tick g
  | .next => g.next_question
  | .prev =>
      match g.prev_question with
      | .ok g' => g'
      | .error _ => g

/-- The claimed invariant: zero seconds remaining implies the timer is not
running. -/
def timerInv (g : Game) : Prop :=
  g.timer_seconds_remaining = some 0 → g.timer_running = false

/-- Game states reachable from a fresh game through timer operations in
which every client-supplied `startTimer` seconds value is positive (the
restriction the counterexample forces on the claim). -/
inductive TimerReachable : Game → Prop where
  | init (code : String) : TimerReachable (Game.new code)
  | step (g : Game) (op : TimerOp) : TimerReachable g →
      (∀ s, op = .start (some s) → 0 < s) →
      TimerReachable (applyTimerOp g op)

/-- C6 (counterexample): the claim says no timer operation may leave the
timer running with zero seconds remaining.  `handle_start_timer` stores a
client-supplied `seconds` value unconditionally, so `StartTimer { seconds:
0 }` on a fresh game leaves `timer_running = true` with
`timer_seconds_remaining = Some(0)` (and no tick task spawned). -/
theorem start_timer_zero_breaks_timer_invariant :
    (applyTimerOp (Game.new "ABCD") (.start (some 0))).timer_running = true ∧
    (applyTimerOp (Game.new "ABCD") (.start (some 0))).timer_seconds_remaining
      = some 0 ∧
    (applyTimerOp (Game.new "ABCD") (.start (some 0))).timer_task = false := by
  refine ⟨by decide, by decide, by decide⟩

lemma start_none_remaining (g : Game) :
    (handle_start_timer g none).timer_seconds_remaining =
      if g.timer_seconds_remaining = none ∨ g.timer_seconds_remaining = some 0
      then some 30 else g.timer_seconds_remaining := by
  unfold handle_start_timer
  dsimp only
  split <;> split <;> rfl

lemma start_some_remaining (g : Game) (s : Nat) :
    (handle_start_timer g (some s)).timer_seconds_remaining = some s := by
  unfold handle_start_timer
  dsimp only
  split <;> rfl

lemma next_question_running (g : Game) :
    g.next_question.timer_running = false := by
  unfold Game.next_question Game.stop_timer
  dsimp only
  split <;> rfl

lemma tick_preserves_timerInv (g : Game) (ih : timerInv g) :
    timerInv (timer_tick g) := by
  unfold timer_tick
  split
  · exact ih
  · split
    · exact ih
    · rename_i remaining hrem
      split
      · exact ih
      · dsimp only
        split
        · intro _; rfl
        · rename_i hnz
          intro h
          simp only [Option.some.injEq] at h
          exact absurd h hnz

/-- C6 (amended): in every state reachable through the timer operations in
which each client-supplied `startTimer` seconds value is positive,
`timerSecondsRemaining = 0` implies `timerRunning = false`.  (The
unrestricted claim fails: see the counterexample for `seconds = 0`.) -/
theorem timer_invariant_holds_for_positive_starts :
    ∀ g, TimerReachable g → timerInv g := by
  intro g hg
  induction hg with
  | init code => intro h; rfl
  | step g op _ hpos ih =>
      cases op with
      | start seconds =>
          cases seconds with
          | none =>
              intro h
              rw [show applyTimerOp g (.start none) = handle_start_timer g none
                    from rfl, start_none_remaining] at h
              split at h
              · simp at h
              · rename_i hcond
                exact absurd (Or.inr h) hcond
          | some s =>
              have hs : 0 < s := hpos s rfl
              intro h
              rw [show applyTimerOp g (.start (some s)) = handle_start_timer g (some s)
                    from rfl, start_some_remaining] at h
              simp only [Option.some.injEq] at h
              omega
      | pause => intro _; rfl
      | reset => intro _; rfl
      | tick => exact tick_preserves_timerInv g ih
      | next => intro _; exact next_question_running g
      | prev =>
          show timerInv (match g.prev_question with
            | .ok g' => g'
            | .error _ => g)
          cases hp : g.prev_question with
          | error e => exact ih
          | ok g' =>
              unfold Game.prev_question at hp
              split at hp
              · exact Except.noConfusion hp
              · dsimp only at hp
                simp only [Except.ok.injEq] at hp
                subst hp
                intro _
                rfl

/-- Witness for C6 at the initial state of a fresh game. -/
theorem timer_invariant_holds_witness :
    timerInv (Game.new "ABCD") :=
  timer_invariant_holds_for_positive_starts (Game.new "ABCD")
    (TimerReachable.init "ABCD")

/-!
## C2: speed-bonus recomputation
-/

/-- The claim's per-answer speed-bonus value: with `place` eligible answers
before this one, `(firstPlacePoints * (numTeams - place)) / numTeams`
(integer division) when `place < numTeams`, else 0. -/
def claimSpeedBonus (place num_teams first_place_points : Nat) : Int :=
  if place < num_teams then
    ((first_place_points * (num_teams - place)) / num_teams : Nat)
  else 0

lemma calculate_speed_bonus_eq_claim (place nt fp : Nat) :
    calculate_speed_bonus place nt fp = claimSpeedBonus place nt fp := by
  unfold calculate_speed_bonus claimSpeedBonus
  rcases Nat.lt_or_ge place nt with h | h
  · rw [if_neg (by omega), if_pos h]
  · rw [if_pos h, if_neg (by omega)]

lemma clearSpeedWalk_length (l : List TeamQuestion) :
    (clearSpeedWalk l).1.length = l.length := by
  induction l with
  | nil => rfl
  | cons a rest ih =>
      simp only [clearSpeedWalk]
      split <;> simp [ih]

lemma clearSpeedWalk_getD (l : List TeamQuestion) (i : Nat) (hi : i < l.length) :
    ((clearSpeedWalk l).1.getD i dAns).score.speed_bonus_points = 0 := by
  induction l generalizing i with
  | nil => simp at hi
  | cons a rest ih =>
      simp only [clearSpeedWalk]
      cases i with
      | zero =>
          split
          · rfl
          · rename_i hz
            simp only [List.getD_cons_zero]
            omega
      | succ i =>
          have hi' : i < rest.length := by simpa using hi
          split <;> simpa using ih i hi'

lemma speedWalk_length (nt fp : Nat) (l : List TeamQuestion) (place : Nat) :
    (speedWalk nt fp place l).1.length = l.length := by
  induction l generalizing place with
  | nil => rfl
  | cons a rest ih =>
      simp only [speedWalk]
      split <;> split <;> simp [ih]

lemma speedWalk_getD_succ (nt fp : Nat) (a : TeamQuestion)
    (rest : List TeamQuestion) (place i : Nat) :
    (speedWalk nt fp place (a :: rest)).1.getD (i + 1) dAns =
      (speedWalk nt fp
        (if a.score.question_points > 0 then place + 1 else place) rest).1.getD i dAns := by
  simp only [speedWalk]
  split <;> split <;> simp

lemma speedWalk_getD_sbp (nt fp : Nat) (l : List TeamQuestion) (place i : Nat)
    (hi : i < l.length) :
    ((speedWalk nt fp place l).1.getD i dAns).score.speed_bonus_points =
      if (l.getD i dAns).score.question_points > 0 then
        calculate_speed_bonus
          (place + (l.take i).countP (fun a => decide (a.score.question_points > 0)))
          nt fp
      else 0 := by
  induction l generalizing place i with
  | nil => simp at hi
  | cons a rest ih =>
      cases i with
      | zero =>
          simp only [List.take_zero, List.countP_nil, Nat.add_zero,
            List.getD_cons_zero, speedWalk]
          by_cases hqp : a.score.question_points > 0
          · simp only [if_pos hqp]
            split
            · simp
            · rename_i hne
              simp only [List.getD_cons_zero]
              omega
          · simp only [if_neg hqp]
            split
            · simp
            · rename_i hne
              simp only [List.getD_cons_zero]
              omega
      | succ i =>
          have hi2 : i < rest.length := by simpa using hi
          rw [speedWalk_getD_succ]
          by_cases hqp : a.score.question_points > 0
          · rw [if_pos hqp, ih (place + 1) i hi2]
            simp only [List.take_succ_cons, List.countP_cons, List.getD_cons_succ]
            rw [if_pos (decide_eq_true hqp)]
            split
            · congr 1 <;> omega
            · rfl
          · rw [if_neg hqp, ih place i hi2]
            simp only [List.take_succ_cons, List.countP_cons, List.getD_cons_succ]
            rw [if_neg (by simpa using hqp :
                  ¬(decide (a.score.question_points > 0) = true))]
            split
            · congr 1 <;> omega
            · rfl

lemma speedWalk_preserves (nt fp : Nat) (l : List TeamQuestion) (place i : Nat) :
    ((speedWalk nt fp place l).1.getD i dAns).team_name = (l.getD i dAns).team_name ∧
    ((speedWalk nt fp place l).1.getD i dAns).content = (l.getD i dAns).content ∧
    ((speedWalk nt fp place l).1.getD i dAns).score.question_points
      = (l.getD i dAns).score.question_points ∧
    ((speedWalk nt fp place l).1.getD i dAns).score.bonus_points
      = (l.getD i dAns).score.bonus_points ∧
    ((speedWalk nt fp place l).1.getD i dAns).score.override_points
      = (l.getD i dAns).score.override_points := by
  induction l generalizing place i with
  | nil => simp [speedWalk]
  | cons a rest ih =>
      cases i with
      | zero =>
          simp only [List.getD_cons_zero, speedWalk]
          split <;> split <;> simp
      | succ i =>
          rw [speedWalk_getD_succ]
          simpa using ih _ i

/-- The per-question effect of `Game::recalculate_speed_bonuses`: the
addressed question keeps all its fields except that its answers pass
through `clearSpeedWalk` (speed bonus disabled) or `speedWalk` from place
0 (enabled), with `numTeams`/`firstPlacePoints` read from the current
settings. -/
lemma recalc_speed_bonuses_getD (g : Game) (idx : Nat)
    (hidx : idx < g.questions.length) :
    (g.recalculate_speed_bonuses idx).1.questions.getD idx initialQuestion =
      { g.questions.getD idx initialQuestion with
          answers :=
            if (g.questions.getD idx initialQuestion).speed_bonus_enabled then
              (speedWalk g.game_settings.speed_bonus_num_teams
                g.game_settings.speed_bonus_first_place_points 0
                (g.questions.getD idx initialQuestion).answers).1
            else (clearSpeedWalk (g.questions.getD idx initialQuestion).answers).1 } := by
  unfold Game.recalculate_speed_bonuses
  split
  · rename_i h
    rw [List.getD_eq_getElem?_getD] at h
    simp [List.getD_eq_getElem?_getD, List.getElem?_set_eq_of_lt _ hidx, h]
  · rename_i h
    simp only [Bool.not_eq_true] at h
    rw [List.getD_eq_getElem?_getD] at h
    simp [List.getD_eq_getElem?_getD, List.getElem?_set_eq_of_lt _ hidx, h]

/-- C2: after `Game::recalculate_speed_bonuses` on a question, each
answer's `speedBonusPoints` is 0 when the question's `speedBonusEnabled`
is false; otherwise an answer with `questionPoints > 0` whose 0-based
place (the count of earlier answers with `questionPoints > 0`, in
submission order) is below `numTeams` holds
`(firstPlacePoints * (numTeams - place)) / numTeams` (integer division)
and 0 from place `numTeams` on; answers with `questionPoints ≤ 0` hold 0.
`numTeams` and `firstPlacePoints` are the game's settings at computation
time. -/
theorem speed_bonus_recomputation_matches_claim :
    ∀ (g : Game) (question_idx : Nat), question_idx < g.questions.length →
      ((g.recalculate_speed_bonuses question_idx).1.questions.getD question_idx
          initialQuestion).answers.length
        = (g.questions.getD question_idx initialQuestion).answers.length ∧
      ∀ i, i < (g.questions.getD question_idx initialQuestion).answers.length →
        (((g.recalculate_speed_bonuses question_idx).1.questions.getD question_idx
            initialQuestion).answers.getD i dAns).score.speed_bonus_points =
          if (g.questions.getD question_idx initialQuestion).speed_bonus_enabled then
            if ((g.questions.getD question_idx initialQuestion).answers.getD i
                  dAns).score.question_points > 0 then
              claimSpeedBonus
                (((g.questions.getD question_idx initialQuestion).answers.take i).countP
                  (fun a => decide (a.score.question_points > 0)))
                g.game_settings.speed_bonus_num_teams
                g.game_settings.speed_bonus_first_place_points
            else 0
          else 0 := by
  intro g question_idx hidx
  rw [recalc_speed_bonuses_getD g question_idx hidx]
  by_cases hen : (g.questions.getD question_idx initialQuestion).speed_bonus_enabled
  · simp only [if_pos hen, hen, if_true]
    refine ⟨speedWalk_length _ _ _ _, fun i hi => ?_⟩
    rw [speedWalk_getD_sbp _ _ _ _ _ hi, calculate_speed_bonus_eq_claim]
    simp
  · simp only [if_neg hen, hen, if_false]
    refine ⟨clearSpeedWalk_length _, fun i hi => ?_⟩
    exact clearSpeedWalk_getD _ _ hi

/-- Witness for C2: the length component at the first question of a fresh
game. -/
theorem speed_bonus_recomputation_witness :
    (((Game.new "ABCD").recalculate_speed_bonuses 0).1.questions.getD 0
        initialQuestion).answers.length
      = ((Game.new "ABCD").questions.getD 0 initialQuestion).answers.length :=
  (speed_bonus_recomputation_matches_claim (Game.new "ABCD") 0 (by decide)).1

/-!
## C3: auto-scoring on submission
-/

lemma recalc_team_score_questions (g : Game) (t : String) :
    (g.recalculate_team_score t).questions = g.questions := rfl

lemma recalc_team_score_cqn (g : Game) (t : String) :
    (g.recalculate_team_score t).current_question_number
      = g.current_question_number := rfl

lemma foldl_recalc_questions (ts : List String) (g : Game) :
    (ts.foldl Game.recalculate_team_score g).questions = g.questions := by
  induction ts generalizing g with
  | nil => rfl
  | cons t ts ih => simpa using ih (g.recalculate_team_score t)

lemma foldl_recalc_cqn (ts : List String) (g : Game) :
    (ts.foldl Game.recalculate_team_score g).current_question_number
      = g.current_question_number := by
  induction ts generalizing g with
  | nil => rfl
  | cons t ts ih => simpa using ih (g.recalculate_team_score t)

lemma foldl_recalc_if_questions (tn : String) (ts : List String) (g : Game) :
    (ts.foldl (fun g team =>
        if team ≠ tn then g.recalculate_team_score team else g) g).questions
      = g.questions := by
  induction ts generalizing g with
  | nil => rfl
  | cons t ts ih =>
      simp only [List.foldl_cons]
      rw [ih]
      split <;> rfl

lemma foldl_recalc_if_cqn (tn : String) (ts : List String) (g : Game) :
    (ts.foldl (fun g team =>
        if team ≠ tn then g.recalculate_team_score team else g) g).current_question_number
      = g.current_question_number := by
  induction ts generalizing g with
  | nil => rfl
  | cons t ts ih =>
      simp only [List.foldl_cons]
      rw [ih]
      split <;> rfl

lemma recalc_speed_bonuses_cqn (g : Game) (idx : Nat) :
    (g.recalculate_speed_bonuses idx).1.current_question_number
      = g.current_question_number := by
  unfold Game.recalculate_speed_bonuses
  dsimp only
  split <;> rfl

lemma recalc_speed_bonuses_len (g : Game) (idx : Nat) :
    (g.recalculate_speed_bonuses idx).1.questions.length
      = g.questions.length := by
  unfold Game.recalculate_speed_bonuses
  dsimp only
  split <;> simp

lemma getD_append_length {α : Type} (l : List α) (x : α) (d : α) :
    (l ++ [x]).getD l.length d = x := by
  rw [List.getD_eq_getElem?_getD, List.getElem?_append_right (Nat.le_refl _)]
  simp

/-- The first-match auto-score search of `Game::add_answer`, rephrased
from `findSome?` to `find?`. -/
lemma findSome?_auto_eq_find? (Q : Int) (target : String)
    (l : List TeamQuestion) :
    (l.findSome? (fun existing =>
      if existing.score.question_points = Q then
        match normalize_answer_text existing.content with
        | some existing_text =>
            if existing_text = target then
              some (Q, existing.score.bonus_points)
            else none
        | none => none
      else none)) =
    (l.find? (fun ex =>
        decide (ex.score.question_points = Q) &&
        (normalize_answer_text ex.content == some target))).map
      (fun ex => (Q, ex.score.bonus_points)) := by
  induction l with
  | nil => rfl
  | cons a rest ih =>
      rw [List.findSome?_cons, List.find?_cons]
      by_cases h1 : a.score.question_points = Q
      · cases hn : normalize_answer_text a.content with
        | none => simp [h1, hn, ih]
        | some t =>
            by_cases h2 : t = target
            · simp [h1, hn, h2]
            · have hbf : (t == target) = false := beq_eq_false_iff_ne.mpr h2
              simp [h1, hn, h2, hbf, ih]
      · simp [h1, ih]

/-- The claim's description of the score a fresh submission receives on a
question with points `Q`: if some existing answer has `questionPoints = Q`
and the same normalized key, the pair `(Q, that answer's bonusPoints)`;
otherwise `(0, 0)`. -/
def inheritedScoreSpec (q : Question) (answer_text : String) : Int × Int :=
  match q.answers.find? (fun ex =>
      decide (ex.score.question_points = (q.question_points : Int)) &&
      (normalize_answer_text ex.content == some (lowerStr (trimStr answer_text)))) with
  | some matched => ((q.question_points : Int), matched.score.bonus_points)
  | none => (0, 0)

lemma clearSpeedWalk_preserves (l : List TeamQuestion) (i : Nat) :
    ((clearSpeedWalk l).1.getD i dAns).team_name = (l.getD i dAns).team_name ∧
    ((clearSpeedWalk l).1.getD i dAns).content = (l.getD i dAns).content ∧
    ((clearSpeedWalk l).1.getD i dAns).score.question_points
      = (l.getD i dAns).score.question_points ∧
    ((clearSpeedWalk l).1.getD i dAns).score.bonus_points
      = (l.getD i dAns).score.bonus_points ∧
    ((clearSpeedWalk l).1.getD i dAns).score.override_points
      = (l.getD i dAns).score.override_points := by
  induction l generalizing i with
  | nil => simp [clearSpeedWalk]
  | cons a rest ih =>
      cases i with
      | zero =>
          simp only [List.getD_cons_zero, clearSpeedWalk]
          split <;> simp
      | succ i =>
          have : (clearSpeedWalk (a :: rest)).1.getD (i + 1) dAns
              = (clearSpeedWalk rest).1.getD i dAns := by
            simp only [clearSpeedWalk]
            split <;> simp
          rw [this]
          simpa using ih i

lemma currentQuestion_set (g : Game) (q : Question)
    (hv : g.current_question_number - 1 < g.questions.length) :
    (g.setCurrentQuestion q).currentQuestion = q := by
  unfold Game.setCurrentQuestion Game.currentQuestion
  simp only [List.getD_eq_getElem?_getD]
  rw [List.getElem?_set_eq_of_lt _ hv]
  rfl

lemma currentQuestion_foldl_recalc_if (tn : String) (ts : List String) (g : Game) :
    (ts.foldl (fun g team =>
        if team ≠ tn then g.recalculate_team_score team else g) g).currentQuestion
      = g.currentQuestion := by
  unfold Game.currentQuestion
  rw [foldl_recalc_if_questions, foldl_recalc_if_cqn]

lemma currentQuestion_recalc_team (g : Game) (t : String) :
    (g.recalculate_team_score t).currentQuestion = g.currentQuestion := rfl

lemma currentQuestion_recalc_sb (g : Game)
    (hidx : g.current_question_number - 1 < g.questions.length) :
    (g.recalculate_speed_bonuses (g.current_question_number - 1)).1.currentQuestion
      = { g.currentQuestion with
          answers :=
            if g.currentQuestion.speed_bonus_enabled then
              (speedWalk g.game_settings.speed_bonus_num_teams
                g.game_settings.speed_bonus_first_place_points 0
                g.currentQuestion.answers).1
            else (clearSpeedWalk g.currentQuestion.answers).1 } := by
  unfold Game.currentQuestion
  rw [recalc_speed_bonuses_cqn]
  exact recalc_speed_bonuses_getD g _ hidx

lemma walkIte_append_length (nt fp : Nat) (b : Bool) (l : List TeamQuestion)
    (x : TeamQuestion) :
    (if b then (speedWalk nt fp 0 (l ++ [x])).1
     else (clearSpeedWalk (l ++ [x])).1).length = l.length + 1 := by
  split
  · rw [speedWalk_length]
    simp
  · rw [clearSpeedWalk_length]
    simp

lemma walkIte_append_last (nt fp : Nat) (b : Bool) (l : List TeamQuestion)
    (x : TeamQuestion) :
    (((if b then (speedWalk nt fp 0 (l ++ [x])).1
       else (clearSpeedWalk (l ++ [x])).1).getD l.length dAns).score.question_points
        = x.score.question_points) ∧
    (((if b then (speedWalk nt fp 0 (l ++ [x])).1
       else (clearSpeedWalk (l ++ [x])).1).getD l.length dAns).score.bonus_points
        = x.score.bonus_points) := by
  split
  · obtain ⟨-, -, h1, h2, -⟩ := speedWalk_preserves nt fp (l ++ [x]) 0 l.length
    rw [h1, h2, getD_append_length]
    exact ⟨rfl, rfl⟩
  · obtain ⟨-, -, h1, h2, -⟩ := clearSpeedWalk_preserves (l ++ [x]) l.length
    rw [h1, h2, getD_append_length]
    exact ⟨rfl, rfl⟩

/-- C3: a successful `addAnswer` appends an answer whose
`questionPoints`/`bonusPoints` are exactly as the claim describes: the
question's full points `Q` plus the first fully-correct key-matching
answer's bonus when such an answer exists, and zero otherwise.  Stated for
valid current-question indices, which every reachable game has. -/
theorem auto_score_on_submission_matches_claim :
    ∀ (g : Game) (team_name answer_text : String),
      g.current_question_number - 1 < g.questions.length →
      (g.add_answer team_name answer_text).2 = true →
      ((g.add_answer team_name answer_text).1.currentQuestion.answers.length
          = g.currentQuestion.answers.length + 1) ∧
      (((g.add_answer team_name answer_text).1.currentQuestion.answers.getD
            g.currentQuestion.answers.length dAns).score.question_points,
        ((g.add_answer team_name answer_text).1.currentQuestion.answers.getD
            g.currentQuestion.answers.length dAns).score.bonus_points)
        = inheritedScoreSpec g.currentQuestion answer_text := by
  intro g tn text hv hok
  by_cases hany :
      (g.currentQuestion.answers.any (fun a => eqCI a.team_name tn)) = true
  · simp only [Game.add_answer, if_pos hany] at hok
    exact absurd hok (by simp)
  · simp only [Game.add_answer, if_neg hany] at hok ⊢
    cases hk : g.currentQuestion.question_kind with
    | multiAnswer =>
        simp only [hk] at hok
        exact absurd hok (by simp)
    | standard =>
        simp only [hk] at hok ⊢
        split
        · rename_i hcond
          rw [Option.isSome_iff_exists] at hcond
          obtain ⟨⟨qp, bp⟩, hfind⟩ := hcond
          rw [hfind]
          dsimp only
          rw [currentQuestion_foldl_recalc_if, currentQuestion_recalc_team]
          rw [currentQuestion_recalc_sb _
                (by simpa [Game.setCurrentQuestion] using hv)]
          rw [currentQuestion_set _ _ hv]
          dsimp only
          refine ⟨walkIte_append_length _ _ _ _ _, ?_⟩
          rw [(walkIte_append_last _ _ _ _ _).1, (walkIte_append_last _ _ _ _ _).2]
          dsimp only
          rw [findSome?_auto_eq_find?] at hfind
          obtain ⟨matched, hfm, heq⟩ := Option.map_eq_some'.mp hfind
          unfold inheritedScoreSpec
          rw [hfm]
          exact heq.symm
        · rename_i hcond
          rw [Option.not_isSome_iff_eq_none] at hcond
          rw [hcond]
          dsimp only
          rw [currentQuestion_set _ _ hv]
          dsimp only
          constructor
          · simp
          · rw [getD_append_length]
            dsimp only
            rw [findSome?_auto_eq_find?] at hcond
            rw [Option.map_eq_none'] at hcond
            unfold inheritedScoreSpec
            rw [hcond]
            rfl
    | multipleChoice =>
        simp only [hk] at hok ⊢
        split
        · rename_i hcond
          rw [Option.isSome_iff_exists] at hcond
          obtain ⟨⟨qp, bp⟩, hfind⟩ := hcond
          rw [hfind]
          dsimp only
          rw [currentQuestion_foldl_recalc_if, currentQuestion_recalc_team]
          rw [currentQuestion_recalc_sb _
                (by simpa [Game.setCurrentQuestion] using hv)]
          rw [currentQuestion_set _ _ hv]
          dsimp only
          refine ⟨walkIte_append_length _ _ _ _ _, ?_⟩
          rw [(walkIte_append_last _ _ _ _ _).1, (walkIte_append_last _ _ _ _ _).2]
          dsimp only
          rw [findSome?_auto_eq_find?] at hfind
          obtain ⟨matched, hfm, heq⟩ := Option.map_eq_some'.mp hfind
          unfold inheritedScoreSpec
          rw [hfm]
          exact heq.symm
        · rename_i hcond
          rw [Option.not_isSome_iff_eq_none] at hcond
          rw [hcond]
          dsimp only
          rw [currentQuestion_set _ _ hv]
          dsimp only
          constructor
          · simp
          · rw [getD_append_length]
            dsimp only
            rw [findSome?_auto_eq_find?] at hcond
            rw [Option.map_eq_none'] at hcond
            unfold inheritedScoreSpec
            rw [hcond]
            rfl

/-!
## C4: equivalence propagation on manual scoring
-/

lemma getD_irrel {α : Type} (l : List α) (i : Nat) (h : i < l.length)
    (d1 d2 : α) : l.getD i d1 = l.getD i d2 := by
  simp [List.getD_eq_getElem?_getD, List.getElem?_eq_getElem h]

lemma eqCI_true_iff (a b : String) : eqCI a b = true ↔ lowerStr a = lowerStr b := by
  unfold eqCI
  exact beq_iff_eq

lemma syncMatching_getD_skip (score : ScoreData) (ntext : String) (aidx : Nat)
    (l : List TeamQuestion) :
    ∀ start m, start + m = aidx →
      (syncMatching score ntext aidx start l).1.getD m dAns = l.getD m dAns := by
  induction l with
  | nil => intro start m _; rfl
  | cons a rest ih =>
      intro start m hsk
      cases m with
      | zero =>
          simp only [syncMatching]
          rw [if_neg (by omega)]
          rfl
      | succ m =>
          have hrec := ih (start + 1) m (by omega)
          simp only [syncMatching, List.getD_cons_succ]
          split
          · split
            · split <;> simpa using hrec
            · simpa using hrec
          · simpa using hrec

lemma syncMatching_getD_match (score : ScoreData) (ntext : String) (aidx : Nat)
    (l : List TeamQuestion) :
    ∀ start m, m < l.length → start + m ≠ aidx →
      normalize_answer_text (l.getD m dAns).content = some ntext →
      ((syncMatching score ntext aidx start l).1.getD m dAns).score.question_points
          = score.question_points ∧
      ((syncMatching score ntext aidx start l).1.getD m dAns).score.bonus_points
          = score.bonus_points := by
  induction l with
  | nil => intro start m hm; simp at hm
  | cons a rest ih =>
      intro start m hm hne hkey
      cases m with
      | zero =>
          simp only [List.getD_cons_zero] at hkey
          simp only [syncMatching]
          rw [if_pos (by omega)]
          rw [hkey]
          dsimp only
          by_cases hdif :
              a.score.question_points ≠ score.question_points ∨
              a.score.bonus_points ≠ score.bonus_points
          · rw [if_pos ⟨rfl, hdif⟩]
            exact ⟨rfl, rfl⟩
          · rw [if_neg (by
              intro hc
              exact hdif hc.2)]
            push_neg at hdif
            simpa using hdif
      | succ m =>
          have hrec := ih (start + 1) m (by simpa using hm) (by omega)
            (by simpa using hkey)
          simp only [syncMatching, List.getD_cons_succ]
          split
          · split
            · split <;> simpa using hrec
            · simpa using hrec
          · simpa using hrec

lemma walkIte_getD_qp_bp (nt fp : Nat) (b : Bool) (l : List TeamQuestion)
    (i : Nat) :
    (((if b then (speedWalk nt fp 0 l).1 else (clearSpeedWalk l).1).getD i
        dAns).score.question_points = ((l.getD i dAns).score.question_points)) ∧
    (((if b then (speedWalk nt fp 0 l).1 else (clearSpeedWalk l).1).getD i
        dAns).score.bonus_points = ((l.getD i dAns).score.bonus_points)) := by
  split
  · obtain ⟨-, -, h1, h2, -⟩ := speedWalk_preserves nt fp l 0 i
    exact ⟨h1, h2⟩
  · obtain ⟨-, -, h1, h2, -⟩ := clearSpeedWalk_preserves l i
    exact ⟨h1, h2⟩

/-- The answers of an (existing) question, addressed 1-based. -/
def questionAnswers (g : Game) (question_number : Nat) : List TeamQuestion :=
  (g.questions.getD (question_number - 1) initialQuestion).answers

lemma questions_after_sync (g : Game) (qs : List Question) (idx : Nat)
    (q' : Question) (hlen : idx < qs.length) (ts : List String) :
    (ts.foldl Game.recalculate_team_score
        (({ g with questions := qs.set idx q' } :
            Game).recalculate_speed_bonuses idx).1).questions.getD idx
        initialQuestion
      = { q' with answers :=
            if q'.speed_bonus_enabled then
              (speedWalk g.game_settings.speed_bonus_num_teams
                g.game_settings.speed_bonus_first_place_points 0 q'.answers).1
            else (clearSpeedWalk q'.answers).1 } := by
  rw [foldl_recalc_questions]
  have h2 : idx <
      ({ g with questions := qs.set idx q' } : Game).questions.length := by
    simpa using hlen
  rw [recalc_speed_bonuses_getD _ _ h2]
  have h3 : ({ g with questions := qs.set idx q' } :
      Game).questions.getD idx initialQuestion = q' := by
    dsimp only
    rw [List.getD_eq_getElem?_getD, List.getElem?_set_eq_of_lt _ hlen]
    rfl
  rw [h3]

/-- C4: after a successful `scoreAnswer` targeting either answer of a pair
with equal (present) normalized keys on a question whose answers carry no
case-insensitive duplicate team names (the game invariant), the pair's
`questionPoints` and `bonusPoints` agree. -/
theorem score_answer_syncs_matching_answers :
    ∀ (g : Game) (question_number : Nat) (team_name : String) (score : ScoreData),
      (questionAnswers g question_number).Pairwise
        (fun a b => eqCI a.team_name b.team_name = false) →
      (g.score_answer question_number team_name score).2 = true →
      ∀ i j : Nat,
        i < (questionAnswers g question_number).length →
        j < (questionAnswers g question_number).length →
        (eqCI ((questionAnswers g question_number).getD i dAns).team_name
            team_name = true ∨
         eqCI ((questionAnswers g question_number).getD j dAns).team_name
            team_name = true) →
        normalize_answer_text ((questionAnswers g question_number).getD i dAns).content
          = normalize_answer_text ((questionAnswers g question_number).getD j dAns).content →
        (normalize_answer_text
            ((questionAnswers g question_number).getD i dAns).content).isSome = true →
        (((questionAnswers (g.score_answer question_number team_name score).1
              question_number).getD i dAns).score.question_points
            = ((questionAnswers (g.score_answer question_number team_name score).1
              question_number).getD j dAns).score.question_points) ∧
        (((questionAnswers (g.score_answer question_number team_name score).1
              question_number).getD i dAns).score.bonus_points
            = ((questionAnswers (g.score_answer question_number team_name score).1
              question_number).getD j dAns).score.bonus_points) := by
  intro g qn tn score hpw hok i j hi hj hci hkey hsome
  simp only [questionAnswers] at hpw hi hj hci hkey hsome ⊢
  by_cases hge : qn - 1 ≥ g.questions.length
  · simp only [Game.score_answer, if_pos hge] at hok
    exact absurd hok (by simp)
  · have hlen : qn - 1 < g.questions.length := by omega
    simp only [Game.score_answer, if_neg hge] at hok ⊢
    cases hfi : (g.questions.getD (qn - 1) initialQuestion).answers.findIdx?
        (fun a => eqCI a.team_name tn) with
    | none =>
        simp only [hfi] at hok
        exact absurd hok (by simp)
    | some aidx =>
        simp only [hfi] at hok ⊢
        obtain ⟨haidx_lt, hpa, -⟩ := List.findIdx?_eq_some_iff_getElem.mp hfi
        have hgetD_elem :
            (g.questions.getD (qn - 1) initialQuestion).answers.getD aidx dAns
              = (g.questions.getD (qn - 1) initialQuestion).answers[aidx] := by
          rw [List.getD_eq_getElem?_getD, List.getElem?_eq_getElem haidx_lt]
          rfl
        have huniq : ∀ m, m < (g.questions.getD (qn - 1) initialQuestion).answers.length →
            eqCI ((g.questions.getD (qn - 1) initialQuestion).answers.getD m dAns).team_name tn
              = true → m = aidx := by
          intro m hm hmm
          by_contra hne
          have h1 := (eqCI_true_iff _ _).mp hmm
          have h2 : lowerStr ((g.questions.getD (qn - 1)
              initialQuestion).answers.getD aidx dAns).team_name = lowerStr tn := by
            rw [hgetD_elem]
            exact (eqCI_true_iff _ _).mp hpa
          have hpair := List.pairwise_iff_getElem.mp hpw
          have hgm : (g.questions.getD (qn - 1) initialQuestion).answers.getD m dAns
              = (g.questions.getD (qn - 1) initialQuestion).answers[m] := by
            rw [List.getD_eq_getElem?_getD, List.getElem?_eq_getElem hm]
            rfl
          rcases Nat.lt_or_ge m aidx with hlt | hge2
          · have hf := hpair m aidx hm haidx_lt hlt
            rw [← hgm, ← hgetD_elem] at hf
            rw [(eqCI_true_iff _ _).mpr (h1.trans h2.symm)] at hf
            exact Bool.noConfusion hf
          · have hlt2 : aidx < m := by omega
            have hf := hpair aidx m haidx_lt hm hlt2
            rw [← hgm, ← hgetD_elem] at hf
            rw [(eqCI_true_iff _ _).mpr (h2.trans h1.symm)] at hf
            exact Bool.noConfusion hf
        have haij : aidx = i ∨ aidx = j := by
          rcases hci with h | h
          · exact Or.inl (huniq i hi h).symm
          · exact Or.inr (huniq j hj h).symm
        have hkey_aidx_some : (normalize_answer_text
            ((g.questions.getD (qn - 1) initialQuestion).answers.getD aidx
              dAns).content).isSome = true := by
          rcases haij with rfl | rfl
          · exact hsome
          · exact hkey ▸ hsome
        obtain ⟨ntext, hnt⟩ := Option.isSome_iff_exists.mp hkey_aidx_some
        have hbr : (g.questions.getD (qn - 1) initialQuestion).answers.getD aidx
            { team_name := tn, score := ScoreData.new, content := none,
              question_kind := (g.questions.getD (qn - 1) initialQuestion).question_kind,
              question_config := (g.questions.getD (qn - 1) initialQuestion).question_config }
            = (g.questions.getD (qn - 1) initialQuestion).answers.getD aidx dAns :=
          getD_irrel _ _ haidx_lt _ _
        rw [hbr, hnt] at hok ⊢
        dsimp only at hok ⊢
        rw [questions_after_sync _ _ _ _ (by simpa using hlen)]
        dsimp only
        have hkij : normalize_answer_text ((g.questions.getD (qn - 1)
              initialQuestion).answers.getD i dAns).content = some ntext ∧
            normalize_answer_text ((g.questions.getD (qn - 1)
              initialQuestion).answers.getD j dAns).content = some ntext := by
          rcases haij with rfl | rfl
          · exact ⟨hnt, hkey ▸ hnt⟩
          · refine ⟨hkey.trans hnt, hnt⟩
        have hfinal : ∀ m, m < (g.questions.getD (qn - 1)
              initialQuestion).answers.length →
            normalize_answer_text ((g.questions.getD (qn - 1)
              initialQuestion).answers.getD m dAns).content = some ntext →
            (((syncMatching score ntext aidx 0
                ((g.questions.getD (qn - 1) initialQuestion).answers.set aidx
                  { (g.questions.getD (qn - 1) initialQuestion).answers.getD aidx dAns with
                      score := { score with speed_bonus_points :=
                        ((g.questions.getD (qn - 1) initialQuestion).answers.getD aidx
                          dAns).score.speed_bonus_points } })).1.getD m
                dAns).score.question_points = score.question_points) ∧
            (((syncMatching score ntext aidx 0
                ((g.questions.getD (qn - 1) initialQuestion).answers.set aidx
                  { (g.questions.getD (qn - 1) initialQuestion).answers.getD aidx dAns with
                      score := { score with speed_bonus_points :=
                        ((g.questions.getD (qn - 1) initialQuestion).answers.getD aidx
                          dAns).score.speed_bonus_points } })).1.getD m
                dAns).score.bonus_points = score.bonus_points) := by
          intro m hm hkeym
          by_cases hmeq : m = aidx
          · subst hmeq
            rw [syncMatching_getD_skip _ _ _ _ 0 m (by omega)]
            rw [List.getD_eq_getElem?_getD, List.getElem?_set_eq_of_lt _ (by
              exact haidx_lt)]
            exact ⟨rfl, rfl⟩
          · refine syncMatching_getD_match _ _ _ _ 0 m (by simpa using hm)
              (by omega) ?_
            rw [List.getD_eq_getElem?_getD, List.getElem?_set_ne (by omega)]
            rw [← List.getD_eq_getElem?_getD]
            exact hkeym
        constructor
        · rw [(walkIte_getD_qp_bp _ _ _ _ i).1, (walkIte_getD_qp_bp _ _ _ _ j).1]
          exact ((hfinal i hi hkij.1).1).trans ((hfinal j hj hkij.2).1).symm
        · rw [(walkIte_getD_qp_bp _ _ _ _ i).2, (walkIte_getD_qp_bp _ _ _ _ j).2]
          exact ((hfinal i hi hkij.1).2).trans ((hfinal j hj hkij.2).2).symm

/-- A game seeded for the auto-scoring demos: teams `A` and `B`, an answer
`"Steve"` by `A` scored fully correct with a bonus of 5. -/
def autoDemoGame : Game :=
  let g := ((Game.new "ABCD").add_team "A" demoColor []).add_team "B" demoColor []
  let g := (g.add_answer "A" "Steve").1
  (g.score_answer 1 "A"
    { question_points := 50, bonus_points := 5, speed_bonus_points := 0,
      override_points := 0 }).1

/-- Witness for C3: team `B` submits a case/whitespace variant of the
scored answer and inherits `(50, 5)`. -/
theorem auto_score_on_submission_witness :
    ((autoDemoGame.add_answer "B" "  STEVE ").1.currentQuestion.answers.length
        = autoDemoGame.currentQuestion.answers.length + 1) ∧
    (((autoDemoGame.add_answer "B" "  STEVE ").1.currentQuestion.answers.getD
          autoDemoGame.currentQuestion.answers.length dAns).score.question_points,
      ((autoDemoGame.add_answer "B" "  STEVE ").1.currentQuestion.answers.getD
          autoDemoGame.currentQuestion.answers.length dAns).score.bonus_points)
      = inheritedScoreSpec autoDemoGame.currentQuestion "  STEVE " :=
  auto_score_on_submission_matches_claim autoDemoGame "B" "  STEVE "
    (by decide) (by decide)

/-- A game where `A` and `B` submitted equivalent answers, unscored. -/
def pairDemoGame : Game :=
  let g := ((Game.new "ABCD").add_team "A" demoColor []).add_team "B" demoColor []
  let g := (g.add_answer "A" "Steve").1
  (g.add_answer "B" "  STEVE ").1

/-- Witness for C4: scoring `A` (addressed as `"a"`) with `(50, 10)`
equalizes the pair of equivalent answers. -/
theorem score_answer_syncs_witness :
    (((questionAnswers (pairDemoGame.score_answer 1 "a"
          { question_points := 50, bonus_points := 10, speed_bonus_points := 0,
            override_points := 0 }).1 1).getD 0 dAns).score.question_points
        = ((questionAnswers (pairDemoGame.score_answer 1 "a"
          { question_points := 50, bonus_points := 10, speed_bonus_points := 0,
            override_points := 0 }).1 1).getD 1 dAns).score.question_points) ∧
    (((questionAnswers (pairDemoGame.score_answer 1 "a"
          { question_points := 50, bonus_points := 10, speed_bonus_points := 0,
            override_points := 0 }).1 1).getD 0 dAns).score.bonus_points
        = ((questionAnswers (pairDemoGame.score_answer 1 "a"
          { question_points := 50, bonus_points := 10, speed_bonus_points := 0,
            override_points := 0 }).1 1).getD 1 dAns).score.bonus_points) :=
  score_answer_syncs_matching_answers pairDemoGame 1 "a"
    { question_points := 50, bonus_points := 10, speed_bonus_points := 0,
      override_points := 0 }
    (by decide) (by decide) 0 1 (by decide) (by decide)
    (Or.inl (by decide)) (by decide) (by decide)

/-!
## C5: team aggregate scores

The claim quantifies over all states reachable through the game-model
operations, as the handlers drive them: teams enter through `add_team`
(the join path), and `add_answer` is invoked only with the name of a
joined team.  `GameOp`/`GameReachable` below capture exactly that; ops
whose underlying operation reports an error (or, for
`update_type_specific_settings`, panics) leave the state unchanged, so
reachability only collects states the process can actually be in.
-/

/-- A default `TeamData` for `List.getD`. -/
def dTeam : TeamData :=
  { team_name := "", team_members := [], team_color := demoColor,
    score := ScoreData.new, connected := false }

/-- One question's contribution to the claim's aggregate for team name
`n`: the sum of a score field over the question's answers whose team name
matches `n` case-insensitively. -/
def qFilterSum (n : String) (f : ScoreData → Int) (q : Question) : Int :=
  ((q.answers.filter (fun a => eqCI a.team_name n)).map
    (fun a => f a.score)).sum

/-- One question's contribution as `Game::recalculate_team_score` computes
it: the first case-insensitive match (agrees with `qFilterSum` when the
question holds no case-insensitively duplicate team names). -/
def qContrib (n : String) (f : ScoreData → Int) (q : Question) : Int :=
  match q.answers.find? (fun a => eqCI a.team_name n) with
  | some a => f a.score
  | none => 0

/-- The claim's aggregate: the sum of a score field over a team's answers
(matched case-insensitively) across all questions. -/
def answersSum (qs : List Question) (n : String) (f : ScoreData → Int) : Int :=
  (qs.map (qFilterSum n f)).sum

/-- The sum `Game::recalculate_team_score` computes across all
questions. -/
def findSum (qs : List Question) (n : String) (f : ScoreData → Int) : Int :=
  (qs.map (qContrib n f)).sum

/-- No two names in the list are equal up to ASCII case. -/
def namesCIDistinct (l : List String) : Prop :=
  l.Pairwise (fun a b => eqCI a b = false)

/-- No question's answer list holds two case-insensitively equal team
names (each team submits at most once per question). -/
def noDupAnswers (qs : List Question) : Prop :=
  ∀ q ∈ qs, namesCIDistinct (q.answers.map TeamQuestion.team_name)

/-- Every answer belongs to a joined team. -/
def answersHaveTeams (g : Game) : Prop :=
  ∀ q ∈ g.questions, ∀ a ∈ q.answers,
    ∃ t ∈ g.teams, eqCI t.team_name a.team_name = true

/-- The claim: every team's aggregate `questionPoints` / `bonusPoints` /
`speedBonusPoints` equal the sum of the corresponding field over that
team's answers (matched case-insensitively) across all questions. -/
def aggOK (g : Game) : Prop :=
  ∀ t ∈ g.teams,
    t.score.question_points
      = answersSum g.questions t.team_name (fun s => s.question_points) ∧
    t.score.bonus_points
      = answersSum g.questions t.team_name (fun s => s.bonus_points) ∧
    t.score.speed_bonus_points
      = answersSum g.questions t.team_name (fun s => s.speed_bonus_points)

/-- The C5 state invariant: a valid current-question index,
case-insensitively duplicate-free answer and team names, every answer
belonging to a joined team, and — the claim — correct aggregate scores. -/
def Inv (g : Game) : Prop :=
  (1 ≤ g.current_question_number ∧
    g.current_question_number ≤ g.questions.length) ∧
  noDupAnswers g.questions ∧
  namesCIDistinct (g.teams.map TeamData.team_name) ∧
  answersHaveTeams g ∧
  aggOK g

/-- The game-model operations of the claim (plus `addTeam`, the join path
that introduces teams). -/
inductive GameOp where
  | addTeam (team_name : String) (team_color : TeamColor)
      (team_members : List String)
  | addAnswer (team_name answer_text : String)
  | scoreAnswer (question_number : Nat) (team_name : String) (score : ScoreData)
  | clearAnswerScore (question_number : Nat) (team_name : String)
  | overrideTeamScore (team_name : String) (override_points : Int)
  | nextQuestion
  | prevQuestion
  | updateGameSettings (settings : GameSettings)
  | updateQuestionSettings
      (question_number timer_duration question_points bonus_increment : Nat)
      (question_type : QuestionKind) (speed_bonus_enabled : Bool)
  | updateTypeSpecificSettings (question_number : Nat)
      (question_config : QuestionConfig)
deriving DecidableEq

/-- Apply an operation; failed operations (including the
`update_type_specific_settings` panic) leave the state unchanged. -/
def applyGameOp (op : GameOp) (g : Game) : Game :=
  match op with
  | .addTeam n c m => g.add_team n c m
  | .addAnswer n t => (g.add_answer n t).1
  | .scoreAnswer qn n s => (g.score_answer qn n s).1
  | .clearAnswerScore qn n => (g.clear_answer_score qn n).1
  | .overrideTeamScore n p => (g.override_team_score n p).1
  | .nextQuestion => g.next_question
  | .prevQuestion =>
      match g.prev_question with
      | .ok g' => g'
      | .error _ => g
  | .updateGameSettings s => g.update_game_settings s
  | .updateQuestionSettings qn td qp bi k sb =>
      match g.update_question_settings qn td qp bi k sb with
      | .ok g' => g'
      | .error _ => g
  | .updateTypeSpecificSettings qn cfg =>
      match g.update_type_specific_settings qn cfg with
      | some (.ok g') => g'
      | _ => g

/-- Is this the `overrideTeamScore` operation? -/
def GameOp.isOverride : GameOp → Bool
  | .overrideTeamScore _ _ => true
  | _ => false

/-- States reachable from a fresh game.  `addAnswer` carries the handler
precondition that the submitting team has joined (the team handler only
submits on behalf of the connection's joined team). -/
inductive GameReachable : Game → Prop where
  | init (code : String) : GameReachable (Game.new code)
  | step (g : Game) (op : GameOp) : GameReachable g →
      (∀ n t, op = .addAnswer n t →
        ∃ tm ∈ g.teams, eqCI tm.team_name n = true) →
      GameReachable (applyGameOp op g)

/-- No non-override operation changes any existing team's
`overridePoints`. -/
def overridePreserved (g g' : Game) : Prop :=
  ∀ t ∈ g.teams, ∀ t' ∈ g'.teams, eqCI t.team_name t'.team_name = true →
    t'.score.override_points = t.score.override_points

/-! ### Case-insensitive-name toolkit -/

lemma eqCI_false_iff (a b : String) :
    eqCI a b = false ↔ lowerStr a ≠ lowerStr b := by
  unfold eqCI
  exact beq_eq_false_iff_ne

lemma eqCI_symm (a b : String) : eqCI a b = eqCI b a := by
  unfold eqCI
  by_cases h : lowerStr a = lowerStr b
  · rw [h]
  · have h1 : (lowerStr a == lowerStr b) = false := beq_eq_false_iff_ne.mpr h
    have h2 : (lowerStr b == lowerStr a) = false :=
      beq_eq_false_iff_ne.mpr (Ne.symm h)
    rw [h1, h2]

lemma eqCI_congr_right (a n m : String) (h : lowerStr n = lowerStr m) :
    eqCI a n = eqCI a m := by
  unfold eqCI
  rw [h]

/-! ### `updateFirst` toolkit -/

lemma updateFirst_length {α : Type} (p : α → Bool) (f : α → α) (l : List α) :
    (updateFirst p f l).length = l.length := by
  induction l with
  | nil => rfl
  | cons x xs ih =>
      simp only [updateFirst]
      split <;> simp [ih]

lemma updateFirst_map {α β : Type} (p : α → Bool) (f : α → α) (φ : α → β)
    (h : ∀ x, φ (f x) = φ x) (l : List α) :
    (updateFirst p f l).map φ = l.map φ := by
  induction l with
  | nil => rfl
  | cons x xs ih =>
      simp only [updateFirst]
      split <;> simp [ih, h]

lemma updateFirst_getD_of_not {α : Type} (p : α → Bool) (f : α → α)
    (l : List α) (k : Nat) (d : α) (hk : k < l.length)
    (hp : p (l.getD k d) = false) :
    (updateFirst p f l).getD k d = l.getD k d := by
  induction l generalizing k with
  | nil => simp at hk
  | cons x xs ih =>
      cases k with
      | zero =>
          simp only [List.getD_cons_zero] at hp ⊢
          simp only [updateFirst]
          rw [if_neg (by simp [hp])]
          rfl
      | succ k =>
          simp only [List.getD_cons_succ] at hp ⊢
          simp only [updateFirst]
          split
          · rfl
          · simpa using ih k (by simpa using hk) hp

lemma updateFirst_getD_of_unique {α : Type} (p : α → Bool) (f : α → α)
    (l : List α) (k : Nat) (d : α) (hk : k < l.length)
    (hp : p (l.getD k d) = true)
    (huniq : ∀ m, m < l.length → m ≠ k → p (l.getD m d) = false) :
    (updateFirst p f l).getD k d = f (l.getD k d) := by
  induction l generalizing k with
  | nil => simp at hk
  | cons x xs ih =>
      cases k with
      | zero =>
          simp only [List.getD_cons_zero] at hp ⊢
          simp only [updateFirst]
          rw [if_pos hp]
          rfl
      | succ k =>
          have hx : p x = false := by
            have := huniq 0 (by simp) (by omega)
            simpa using this
          simp only [List.getD_cons_succ] at hp ⊢
          simp only [updateFirst]
          rw [if_neg (by simp [hx])]
          simp only [List.getD_cons_succ]
          refine ih k (by simpa using hk) hp (fun m hm hne => ?_)
          have := huniq (m + 1) (by simpa using hm) (by omega)
          simpa using this

lemma updateFirst_mem {α : Type} (p : α → Bool) (f : α → α) (l : List α) :
    ∀ x ∈ updateFirst p f l, x ∈ l ∨ ∃ y ∈ l, x = f y := by
  induction l with
  | nil => intro x hx; simp [updateFirst] at hx
  | cons a rest ih =>
      intro x hx
      simp only [updateFirst] at hx
      by_cases hp : p a = true
      · rw [if_pos hp] at hx
        rcases List.mem_cons.mp hx with h | h
        · exact Or.inr ⟨a, List.mem_cons_self a rest, h⟩
        · exact Or.inl (List.mem_cons_of_mem a h)
      · rw [if_neg hp] at hx
        rcases List.mem_cons.mp hx with h | h
        · exact Or.inl (h ▸ List.mem_cons_self a rest)
        · rcases ih x h with h' | ⟨y, hy, hxy⟩
          · exact Or.inl (List.mem_cons_of_mem a h')
          · exact Or.inr ⟨y, List.mem_cons_of_mem a hy, hxy⟩

/-! ### `find?` / filter toolkit -/

lemma findPredCongr {α : Type} (p q : α → Bool) (l : List α)
    (h : ∀ a, p a = q a) : l.find? p = l.find? q := by
  induction l with
  | nil => rfl
  | cons a rest ih =>
      rw [List.find?_cons, List.find?_cons, h a, ih]

lemma getD_map_name (l : List TeamData) (m : Nat) (hm : m < l.length) :
    (l.map TeamData.team_name).getD m "" = (l.getD m dTeam).team_name := by
  simp [List.getD_eq_getElem?_getD, List.getElem?_map,
    List.getElem?_eq_getElem hm]

lemma getD_map_aname (l : List TeamQuestion) (m : Nat) (hm : m < l.length) :
    (l.map TeamQuestion.team_name).getD m "" = (l.getD m dAns).team_name := by
  simp [List.getD_eq_getElem?_getD, List.getElem?_map,
    List.getElem?_eq_getElem hm]

lemma namesCIDistinct_pair (L : List String) (hd : namesCIDistinct L)
    (i j : Nat) (hi : i < L.length) (hj : j < L.length) (hij : i ≠ j) :
    eqCI (L.getD i "") (L.getD j "") = false := by
  have hpw := List.pairwise_iff_getElem.mp hd
  rcases Nat.lt_or_ge i j with h | h
  · have := hpw i j hi hj h
    rw [List.getD_eq_getElem?_getD, List.getElem?_eq_getElem hi,
      List.getD_eq_getElem?_getD, List.getElem?_eq_getElem hj]
    simpa using this
  · have hji : j < i := by omega
    have := hpw j i hj hi hji
    rw [List.getD_eq_getElem?_getD, List.getElem?_eq_getElem hi,
      List.getD_eq_getElem?_getD, List.getElem?_eq_getElem hj, eqCI_symm]
    simpa using this

/-! ### Sum algebra for `qContrib` / `qFilterSum` -/

lemma findSum_cons (q : Question) (rest : List Question) (n : String)
    (f : ScoreData → Int) :
    findSum (q :: rest) n f = qContrib n f q + findSum rest n f := by
  simp [findSum]

lemma answersSum_cons (q : Question) (rest : List Question) (n : String)
    (f : ScoreData → Int) :
    answersSum (q :: rest) n f = qFilterSum n f q + answersSum rest n f := by
  simp [answersSum]

/-- With no case-insensitive duplicate team names in the answer list, the
first-match contribution is the whole filtered sum. -/
lemma contrib_eq_filterSum_of_nodup (l : List TeamQuestion) (n : String)
    (f : ScoreData → Int)
    (hnd : namesCIDistinct (l.map TeamQuestion.team_name)) :
    (match l.find? (fun a => eqCI a.team_name n) with
      | some a => f a.score
      | none => 0)
    = ((l.filter (fun a => eqCI a.team_name n)).map (fun a => f a.score)).sum := by
  induction l with
  | nil => rfl
  | cons a rest ih =>
      have hnd' : (TeamQuestion.team_name a :: rest.map TeamQuestion.team_name).Pairwise
          (fun a b => eqCI a b = false) := by simpa [namesCIDistinct] using hnd
      obtain ⟨hhead, htail⟩ := List.pairwise_cons.mp hnd'
      rw [List.find?_cons, List.filter_cons]
      by_cases hpa : eqCI a.team_name n = true
      · rw [if_pos hpa, hpa]
        have hnilf : rest.filter (fun a => eqCI a.team_name n) = [] := by
          apply List.filter_eq_nil_iff.mpr
          intro b hb hbn
          have h1 : lowerStr a.team_name = lowerStr n :=
            (eqCI_true_iff a.team_name n).mp hpa
          have h2 : lowerStr b.team_name = lowerStr n :=
            (eqCI_true_iff b.team_name n).mp hbn
          have h3 := hhead b.team_name (List.mem_map_of_mem TeamQuestion.team_name hb)
          rw [eqCI_false_iff] at h3
          exact h3 (h1.trans h2.symm)
        simp [hnilf]
      · have hfa : eqCI a.team_name n = false := by
          cases hh : eqCI a.team_name n with
          | true => exact absurd hh hpa
          | false => rfl
        rw [hfa, if_neg (by simp)]
        dsimp only
        exact ih htail

lemma qContrib_eq_qFilterSum (q : Question) (n : String) (f : ScoreData → Int)
    (hnd : namesCIDistinct (q.answers.map TeamQuestion.team_name)) :
    qContrib n f q = qFilterSum n f q :=
  contrib_eq_filterSum_of_nodup q.answers n f hnd

lemma findSum_eq_answersSum (qs : List Question) (n : String)
    (f : ScoreData → Int) (hnd : noDupAnswers qs) :
    findSum qs n f = answersSum qs n f := by
  unfold findSum answersSum
  congr 1
  exact List.map_congr_left (fun q hq => qContrib_eq_qFilterSum q n f (hnd q hq))

lemma qContrib_congr_name (q : Question) (n m : String)
    (h : lowerStr n = lowerStr m) (f : ScoreData → Int) :
    qContrib n f q = qContrib m f q := by
  unfold qContrib
  rw [findPredCongr (fun a : TeamQuestion => eqCI a.team_name n)
    (fun a => eqCI a.team_name m) q.answers
    (fun a => eqCI_congr_right a.team_name n m h)]

lemma findSum_congr_name (qs : List Question) (n m : String)
    (h : lowerStr n = lowerStr m) (f : ScoreData → Int) :
    findSum qs n f = findSum qs m f := by
  unfold findSum
  congr 1
  exact List.map_congr_left (fun q _ => qContrib_congr_name q n m h f)

lemma findSum_set (qs : List Question) (idx : Nat) (q' : Question)
    (n : String) (f : ScoreData → Int)
    (h : qContrib n f q' = qContrib n f (qs.getD idx initialQuestion)) :
    findSum (qs.set idx q') n f = findSum qs n f := by
  induction qs generalizing idx with
  | nil => rfl
  | cons q rest ih =>
      cases idx with
      | zero =>
          rw [List.set_cons_zero, findSum_cons, findSum_cons]
          rw [h]
          rfl
      | succ idx =>
          rw [List.set_cons_succ, findSum_cons, findSum_cons,
            ih idx (by simpa using h)]

lemma answersSum_set (qs : List Question) (idx : Nat) (q' : Question)
    (n : String) (f : ScoreData → Int)
    (h : qFilterSum n f q' = qFilterSum n f (qs.getD idx initialQuestion)) :
    answersSum (qs.set idx q') n f = answersSum qs n f := by
  induction qs generalizing idx with
  | nil => rfl
  | cons q rest ih =>
      cases idx with
      | zero =>
          rw [List.set_cons_zero, answersSum_cons, answersSum_cons]
          rw [h]
          rfl
      | succ idx =>
          rw [List.set_cons_succ, answersSum_cons, answersSum_cons,
            ih idx (by simpa using h)]

lemma answersSum_map_answers_eq (qs : List Question) (φ : Question → Question)
    (h : ∀ q, (φ q).answers = q.answers) (n : String) (f : ScoreData → Int) :
    answersSum (qs.map φ) n f = answersSum qs n f := by
  unfold answersSum
  rw [List.map_map]
  congr 1
  refine List.map_congr_left (fun q _ => ?_)
  simp [qFilterSum, h]

lemma answersSum_append_one (qs : List Question) (q0 : Question) (n : String)
    (f : ScoreData → Int) :
    answersSum (qs ++ [q0]) n f = answersSum qs n f + qFilterSum n f q0 := by
  unfold answersSum
  rw [List.map_append, List.sum_append]
  simp

/-! ### Characterizing `Game::recalculate_team_score` -/

/-- The field rewrite `recalculate_team_score` performs on the matched
team: the three aggregate fields become the first-match sums, everything
else (name, members, `override_points`, …) is untouched. -/
def recalcScore (qs : List Question) (n : String) (t : TeamData) : TeamData :=
  { t with score :=
      { t.score with
          question_points := findSum qs n (fun s => s.question_points)
          bonus_points := findSum qs n (fun s => s.bonus_points)
          speed_bonus_points := findSum qs n (fun s => s.speed_bonus_points) } }

lemma recalcScore_name (qs : List Question) (n : String) (t : TeamData) :
    (recalcScore qs n t).team_name = t.team_name := rfl

lemma recalcScore_override (qs : List Question) (n : String) (t : TeamData) :
    (recalcScore qs n t).score.override_points = t.score.override_points := rfl

lemma recalcScore_idem (qs : List Question) (n m : String) (t : TeamData) :
    recalcScore qs n (recalcScore qs m t) = recalcScore qs n t := rfl

lemma recalcScore_congr_name (qs : List Question) (n m : String)
    (h : lowerStr n = lowerStr m) (t : TeamData) :
    recalcScore qs n t = recalcScore qs m t := by
  unfold recalcScore
  rw [findSum_congr_name qs n m h, findSum_congr_name qs n m h,
    findSum_congr_name qs n m h]

lemma totals_foldl (qs : List Question) (n : String) (acc : Int × Int × Int) :
    qs.foldl
      (fun (acc : Int × Int × Int) q =>
        match q.answers.find? (fun a => eqCI a.team_name n) with
        | some a =>
            (acc.1 + a.score.question_points,
             acc.2.1 + a.score.bonus_points,
             acc.2.2 + a.score.speed_bonus_points)
        | none => acc) acc
    = (acc.1 + findSum qs n (fun s => s.question_points),
       acc.2.1 + findSum qs n (fun s => s.bonus_points),
       acc.2.2 + findSum qs n (fun s => s.speed_bonus_points)) := by
  induction qs generalizing acc with
  | nil => simp [findSum]
  | cons q rest ih =>
      rw [List.foldl_cons, ih, findSum_cons, findSum_cons, findSum_cons]
      unfold qContrib
      cases hf : q.answers.find? (fun a => eqCI a.team_name n) with
      | none => simp
      | some a =>
          simp only [Prod.mk.injEq]
          refine ⟨by ring, by ring, by ring⟩

lemma recalc_eq_updateFirst (g : Game) (n : String) :
    (g.recalculate_team_score n).teams
      = updateFirst (fun t => eqCI t.team_name n) (recalcScore g.questions n)
          g.teams := by
  unfold Game.recalculate_team_score Game.updateTeam
  dsimp only
  simp only [totals_foldl, Int.zero_add]
  rfl

lemma recalc_teams_length (g : Game) (n : String) :
    (g.recalculate_team_score n).teams.length = g.teams.length := by
  rw [recalc_eq_updateFirst, updateFirst_length]

lemma recalc_teams_names (g : Game) (n : String) :
    (g.recalculate_team_score n).teams.map TeamData.team_name
      = g.teams.map TeamData.team_name := by
  rw [recalc_eq_updateFirst]
  exact updateFirst_map _ _ _ (recalcScore_name g.questions n) g.teams

lemma foldl_recalc_teams_length (S : List String) (g : Game) :
    (S.foldl Game.recalculate_team_score g).teams.length = g.teams.length := by
  induction S generalizing g with
  | nil => rfl
  | cons s S ih =>
      rw [List.foldl_cons, ih, recalc_teams_length]

lemma foldl_recalc_teams_names (S : List String) (g : Game) :
    (S.foldl Game.recalculate_team_score g).teams.map TeamData.team_name
      = g.teams.map TeamData.team_name := by
  induction S generalizing g with
  | nil => rfl
  | cons s S ih =>
      rw [List.foldl_cons, ih, recalc_teams_names]

/-- With case-insensitively distinct team names, a name that matches the
team at index `k` matches no other team. -/
lemma team_match_unique (g : Game)
    (hdist : namesCIDistinct (g.teams.map TeamData.team_name)) (n : String)
    (k : Nat) (hk : k < g.teams.length)
    (hmatch : eqCI (g.teams.getD k dTeam).team_name n = true) :
    ∀ m, m < g.teams.length → m ≠ k →
      eqCI (g.teams.getD m dTeam).team_name n = false := by
  intro m hm hne
  have hpair := namesCIDistinct_pair _ hdist m k
    (by simpa using hm) (by simpa using hk) hne
  rw [getD_map_name _ _ hm, getD_map_name _ _ hk] at hpair
  rw [eqCI_false_iff] at hpair ⊢
  intro hc
  exact hpair (hc.trans ((eqCI_true_iff _ _).mp hmatch).symm)

lemma recalc_getD_match (g : Game) (n : String) (k : Nat)
    (hk : k < g.teams.length)
    (hdist : namesCIDistinct (g.teams.map TeamData.team_name))
    (hmatch : eqCI (g.teams.getD k dTeam).team_name n = true) :
    (g.recalculate_team_score n).teams.getD k dTeam
      = recalcScore g.questions n (g.teams.getD k dTeam) := by
  rw [recalc_eq_updateFirst]
  exact updateFirst_getD_of_unique _ _ _ _ _ hk hmatch
    (team_match_unique g hdist n k hk hmatch)

lemma recalc_getD_miss (g : Game) (n : String) (k : Nat)
    (hk : k < g.teams.length)
    (hmiss : eqCI (g.teams.getD k dTeam).team_name n = false) :
    (g.recalculate_team_score n).teams.getD k dTeam = g.teams.getD k dTeam := by
  rw [recalc_eq_updateFirst]
  exact updateFirst_getD_of_not _ _ _ _ _ hk hmiss

/-- The elementwise effect of a chain of `recalculate_team_score` calls on
a game with case-insensitively distinct team names: a team some chain
element matches gets its three aggregate fields recomputed from the
(unchanged) questions; every other team is untouched. -/
lemma foldl_recalc_teams_getD (S : List String) (g : Game) (k : Nat)
    (hk : k < g.teams.length)
    (hdist : namesCIDistinct (g.teams.map TeamData.team_name)) :
    (S.foldl Game.recalculate_team_score g).teams.getD k dTeam
      = if ∃ s ∈ S, eqCI (g.teams.getD k dTeam).team_name s = true then
          recalcScore g.questions (g.teams.getD k dTeam).team_name
            (g.teams.getD k dTeam)
        else g.teams.getD k dTeam := by
  induction S generalizing g with
  | nil => simp
  | cons s S ih =>
      rw [List.foldl_cons]
      have hk1 : k < (g.recalculate_team_score s).teams.length := by
        rw [recalc_teams_length]; exact hk
      have hdist1 : namesCIDistinct
          ((g.recalculate_team_score s).teams.map TeamData.team_name) := by
        rw [recalc_teams_names]; exact hdist
      have hname1 : ((g.recalculate_team_score s).teams.getD k dTeam).team_name
          = (g.teams.getD k dTeam).team_name := by
        have := recalc_teams_names g s
        have e1 := getD_map_name (g.recalculate_team_score s).teams k hk1
        have e2 := getD_map_name g.teams k hk
        rw [this] at e1
        rw [← e1, ← e2]
      have hq1 : (g.recalculate_team_score s).questions = g.questions :=
        recalc_team_score_questions g s
      rw [ih _ hk1 hdist1, hname1, hq1]
      by_cases hms : eqCI (g.teams.getD k dTeam).team_name s = true
      · have hstep := recalc_getD_match g s k hk hdist hms
        have hcn : lowerStr s = lowerStr (g.teams.getD k dTeam).team_name :=
          ((eqCI_true_iff _ _).mp hms).symm
        by_cases hrest : ∃ s' ∈ S,
            eqCI (g.teams.getD k dTeam).team_name s' = true
        · rw [if_pos hrest, if_pos ⟨s, List.mem_cons_self s S, hms⟩, hstep,
            recalcScore_idem]
        · rw [if_neg hrest, if_pos ⟨s, List.mem_cons_self s S, hms⟩, hstep,
            recalcScore_congr_name g.questions s _ hcn]
      · have hms' : eqCI (g.teams.getD k dTeam).team_name s = false := by
          cases hh : eqCI (g.teams.getD k dTeam).team_name s with
          | true => exact absurd hh hms
          | false => rfl
        have hstep := recalc_getD_miss g s k hk hms'
        rw [hstep]
        by_cases hrest : ∃ s' ∈ S,
            eqCI (g.teams.getD k dTeam).team_name s' = true
        · rw [if_pos hrest, if_pos ?_]
          obtain ⟨s', hs', he⟩ := hrest
          exact ⟨s', List.mem_cons_of_mem s hs', he⟩
        · rw [if_neg hrest, if_neg ?_]
          intro ⟨s', hs', he⟩
          rcases List.mem_cons.mp hs' with h | h
          · exact hms (h ▸ he)
          · exact hrest ⟨s', h, he⟩

lemma foldl_recalc_override_getD (S : List String) (g : Game) (k : Nat)
    (hk : k < g.teams.length)
    (hdist : namesCIDistinct (g.teams.map TeamData.team_name)) :
    ((S.foldl Game.recalculate_team_score g).teams.getD k dTeam).score.override_points
      = ((g.teams.getD k dTeam)).score.override_points := by
  rw [foldl_recalc_teams_getD S g k hk hdist]
  split
  · exact recalcScore_override _ _ _
  · rfl

/-! ### Which teams the speed-bonus walks and sync loop touch -/

lemma getD_mem {α : Type} (l : List α) (k : Nat) (hk : k < l.length) (d : α) :
    l.getD k d ∈ l := by
  rw [List.getD_eq_getElem?_getD, List.getElem?_eq_getElem hk]
  exact List.getElem_mem hk

lemma clearSpeedWalk_getD_succ (a : TeamQuestion) (rest : List TeamQuestion)
    (m : Nat) :
    (clearSpeedWalk (a :: rest)).1.getD (m + 1) dAns
      = (clearSpeedWalk rest).1.getD m dAns := by
  simp only [clearSpeedWalk]
  split <;> simp

lemma clearSpeedWalk_snd_super (a : TeamQuestion) (rest : List TeamQuestion) :
    ∀ x ∈ (clearSpeedWalk rest).2, x ∈ (clearSpeedWalk (a :: rest)).2 := by
  intro x hx
  simp only [clearSpeedWalk]
  split <;> simp [hx]

lemma clearSpeedWalk_dirty (l : List TeamQuestion) (m : Nat) (hm : m < l.length)
    (hne : (clearSpeedWalk l).1.getD m dAns ≠ l.getD m dAns) :
    (l.getD m dAns).team_name ∈ (clearSpeedWalk l).2 := by
  induction l generalizing m with
  | nil => simp at hm
  | cons a rest ih =>
      cases m with
      | zero =>
          by_cases hz : a.score.speed_bonus_points ≠ 0
          · simp [clearSpeedWalk, hz]
          · simp only [clearSpeedWalk, if_neg hz, List.getD_cons_zero] at hne
            exact absurd rfl hne
      | succ m =>
          have hm' : m < rest.length := by simpa using hm
          rw [clearSpeedWalk_getD_succ, List.getD_cons_succ] at hne
          rw [List.getD_cons_succ]
          exact clearSpeedWalk_snd_super a rest _ (ih m hm' hne)

lemma speedWalk_snd_super (nt fp : Nat) (a : TeamQuestion)
    (rest : List TeamQuestion) (place : Nat) :
    ∀ x ∈ (speedWalk nt fp
        (if a.score.question_points > 0 then place + 1 else place) rest).2,
      x ∈ (speedWalk nt fp place (a :: rest)).2 := by
  intro x hx
  by_cases hqp : a.score.question_points > 0
  · rw [if_pos hqp] at hx
    simp only [speedWalk, if_pos hqp]
    split <;> simp [hx]
  · rw [if_neg hqp] at hx
    simp only [speedWalk, if_neg hqp]
    split <;> simp [hx]

lemma speedWalk_dirty (nt fp : Nat) (l : List TeamQuestion) (place m : Nat)
    (hm : m < l.length)
    (hne : (speedWalk nt fp place l).1.getD m dAns ≠ l.getD m dAns) :
    (l.getD m dAns).team_name ∈ (speedWalk nt fp place l).2 := by
  induction l generalizing place m with
  | nil => simp at hm
  | cons a rest ih =>
      cases m with
      | zero =>
          by_cases hz : a.score.speed_bonus_points ≠
              (if a.score.question_points > 0 then
                calculate_speed_bonus place nt fp
              else 0)
          · simp [speedWalk, hz]
          · simp only [speedWalk, if_neg hz, List.getD_cons_zero] at hne
            exact absurd rfl hne
      | succ m =>
          have hm' : m < rest.length := by simpa using hm
          rw [speedWalk_getD_succ, List.getD_cons_succ] at hne
          rw [List.getD_cons_succ]
          exact speedWalk_snd_super nt fp a rest place _ (ih _ m hm' hne)

lemma syncMatching_getD_zero (score : ScoreData) (ntext : String) (aidx : Nat)
    (a : TeamQuestion) (rest : List TeamQuestion) (start : Nat) :
    (syncMatching score ntext aidx start (a :: rest)).1.getD 0 dAns
      = if start ≠ aidx ∧ normalize_answer_text a.content = some ntext ∧
          (a.score.question_points ≠ score.question_points ∨
           a.score.bonus_points ≠ score.bonus_points) then
          { a with score :=
              { a.score with
                  question_points := score.question_points
                  bonus_points := score.bonus_points } }
        else a := by
  by_cases h1 : start ≠ aidx
  · simp only [syncMatching, if_pos h1]
    cases hmn : normalize_answer_text a.content with
    | none =>
        dsimp only
        rw [if_neg (fun h => by simpa using h.2.1)]
        simp
    | some t =>
        dsimp only
        by_cases h2 : t = ntext ∧
            (a.score.question_points ≠ score.question_points ∨
             a.score.bonus_points ≠ score.bonus_points)
        · rw [if_pos h2, if_pos ⟨h1, by rw [h2.1], h2.2⟩]
          simp
        · rw [if_neg h2, if_neg (fun h => h2 ⟨by injection h.2.1, h.2.2⟩)]
          simp
  · simp only [syncMatching, if_neg h1]
    rw [if_neg (fun h => h1 h.1)]
    simp

lemma syncMatching_getD_succ (score : ScoreData) (ntext : String) (aidx : Nat)
    (a : TeamQuestion) (rest : List TeamQuestion) (start m : Nat) :
    (syncMatching score ntext aidx start (a :: rest)).1.getD (m + 1) dAns
      = (syncMatching score ntext aidx (start + 1) rest).1.getD m dAns := by
  simp only [syncMatching]
  split
  · split
    · split <;> simp
    · simp
  · simp

lemma syncMatching_snd_super (score : ScoreData) (ntext : String) (aidx : Nat)
    (a : TeamQuestion) (rest : List TeamQuestion) (start : Nat) :
    ∀ x ∈ (syncMatching score ntext aidx (start + 1) rest).2,
      x ∈ (syncMatching score ntext aidx start (a :: rest)).2 := by
  intro x hx
  simp only [syncMatching]
  split
  · split
    · split <;> simp [hx]
    · simp [hx]
  · simp [hx]

lemma syncMatching_length (score : ScoreData) (ntext : String) (aidx : Nat)
    (l : List TeamQuestion) :
    ∀ start, (syncMatching score ntext aidx start l).1.length = l.length := by
  induction l with
  | nil => intro start; rfl
  | cons a rest ih =>
      intro start
      simp only [syncMatching]
      split
      · split
        · split <;> simp [ih]
        · simp [ih]
      · simp [ih]

lemma syncMatching_getD_name (score : ScoreData) (ntext : String) (aidx : Nat)
    (l : List TeamQuestion) :
    ∀ start m,
      ((syncMatching score ntext aidx start l).1.getD m dAns).team_name
        = (l.getD m dAns).team_name := by
  induction l with
  | nil => intro start m; rfl
  | cons a rest ih =>
      intro start m
      cases m with
      | zero =>
          rw [syncMatching_getD_zero, List.getD_cons_zero]
          split <;> rfl
      | succ m =>
          rw [syncMatching_getD_succ, List.getD_cons_succ]
          exact ih (start + 1) m

lemma syncMatching_dirty (score : ScoreData) (ntext : String) (aidx : Nat)
    (l : List TeamQuestion) :
    ∀ start m, m < l.length →
      (syncMatching score ntext aidx start l).1.getD m dAns ≠ l.getD m dAns →
      (l.getD m dAns).team_name ∈ (syncMatching score ntext aidx start l).2 := by
  induction l with
  | nil => intro start m hm; simp at hm
  | cons a rest ih =>
      intro start m hm hne
      cases m with
      | zero =>
          rw [syncMatching_getD_zero, List.getD_cons_zero] at hne
          rw [List.getD_cons_zero]
          by_cases hcond : start ≠ aidx ∧
              normalize_answer_text a.content = some ntext ∧
              (a.score.question_points ≠ score.question_points ∨
               a.score.bonus_points ≠ score.bonus_points)
          · obtain ⟨h1, hkey, hdiff⟩ := hcond
            simp only [syncMatching, if_pos h1]
            rw [hkey]
            dsimp only
            rw [if_pos ⟨rfl, hdiff⟩]
            simp
          · rw [if_neg hcond] at hne
            exact absurd rfl hne
      | succ m =>
          have hm' : m < rest.length := by simpa using hm
          rw [syncMatching_getD_succ, List.getD_cons_succ] at hne
          rw [List.getD_cons_succ]
          exact syncMatching_snd_super score ntext aidx a rest start _
            (ih (start + 1) m hm' hne)

lemma mem_getD_of_mem {α : Type} (l : List α) (x d : α) (hx : x ∈ l) :
    ∃ k, k < l.length ∧ l.getD k d = x := by
  obtain ⟨i, hi, hit⟩ := List.mem_iff_getElem.mp hx
  refine ⟨i, hi, ?_⟩
  rw [List.getD_eq_getElem?_getD, List.getElem?_eq_getElem hi]
  simpa using hit

lemma map_name_eq_of_getD (l l' : List TeamQuestion)
    (hlen : l'.length = l.length)
    (hname : ∀ m, (l'.getD m dAns).team_name = (l.getD m dAns).team_name) :
    l'.map TeamQuestion.team_name = l.map TeamQuestion.team_name := by
  apply List.ext_getElem (by simpa using hlen)
  intro i h1 h2
  have h1' : i < l'.length := by simpa using h1
  have h2' : i < l.length := by simpa using h2
  rw [List.getElem_map, List.getElem_map]
  have := hname i
  rw [List.getD_eq_getElem?_getD, List.getElem?_eq_getElem h1',
    List.getD_eq_getElem?_getD, List.getElem?_eq_getElem h2'] at this
  simpa using this

lemma exists_team_of_names_eq (T T' : List TeamData)
    (h : T'.map TeamData.team_name = T.map TeamData.team_name) (nm : String)
    (hex : ∃ t ∈ T, eqCI t.team_name nm = true) :
    ∃ t ∈ T', eqCI t.team_name nm = true := by
  obtain ⟨t, ht, he⟩ := hex
  obtain ⟨i, hi, hit⟩ := mem_getD_of_mem T t dTeam ht
  have hlen : T'.length = T.length := by
    have := congrArg List.length h
    simpa using this
  refine ⟨T'.getD i dTeam, getD_mem _ _ (by omega) _, ?_⟩
  have e1 := getD_map_name T' i (by omega)
  have e2 := getD_map_name T i hi
  rw [h] at e1
  rw [← e1, e2, hit]
  exact he

/-- A same-length answer-list transformation whose every changed entry's
team name is covered (case-insensitively) by `dirt` does not change the
first-match contribution for any team name clean of `dirt`. -/
lemma contrib_list_eq_of_clean (dirt : List String) (l l' : List TeamQuestion)
    (hlen : l'.length = l.length)
    (hname : ∀ m, (l'.getD m dAns).team_name = (l.getD m dAns).team_name)
    (hdirty : ∀ m, m < l.length → l'.getD m dAns ≠ l.getD m dAns →
      ∃ d ∈ dirt, lowerStr d = lowerStr (l.getD m dAns).team_name)
    (n : String) (hclean : ∀ d ∈ dirt, lowerStr d ≠ lowerStr n)
    (f : ScoreData → Int) :
    (match l'.find? (fun a => eqCI a.team_name n) with
      | some a => f a.score
      | none => 0)
    = (match l.find? (fun a => eqCI a.team_name n) with
      | some a => f a.score
      | none => 0) := by
  induction l generalizing l' with
  | nil =>
      have : l' = [] := List.eq_nil_of_length_eq_zero (by simpa using hlen)
      rw [this]
  | cons a rest ih =>
      cases l' with
      | nil => simp at hlen
      | cons a' rest' =>
          have hn0 : a'.team_name = a.team_name := by simpa using hname 0
          rw [List.find?_cons, List.find?_cons, hn0]
          by_cases hpa : eqCI a.team_name n = true
          · rw [hpa]
            dsimp only
            by_cases heq : a' = a
            · rw [heq]
            · obtain ⟨d, hd, hld⟩ := hdirty 0 (by simp) (by simpa using heq)
              simp only [List.getD_cons_zero] at hld
              exact absurd (hld.trans ((eqCI_true_iff _ _).mp hpa))
                (hclean d hd)
          · have hfa : eqCI a.team_name n = false := by
              cases hh : eqCI a.team_name n with
              | true => exact absurd hh hpa
              | false => rfl
            rw [hfa]
            dsimp only
            refine ih rest' (by simpa using hlen)
              (fun m => by simpa using hname (m + 1))
              (fun m hm hne => ?_)
            have := hdirty (m + 1) (by simpa using hm)
              (by simpa using hne)
            simpa using this

/-! ### The master lemma: recalculation restores correct aggregates -/

/-- The three aggregate score fields the claim (and
`recalculate_team_score`) is about. -/
def isAggField (f : ScoreData → Int) : Prop :=
  f = (fun s => s.question_points) ∨ f = (fun s => s.bonus_points) ∨
    f = (fun s => s.speed_bonus_points)

/-- After a mutation step from `gOld` to `gMut` that leaves the teams
alone and changes answer sums only for team names covered by `D`, running
`recalculate_team_score` over any name list `S` that covers `D`
case-insensitively restores correct aggregates for every team. -/
lemma aggOK_after_recalcs (gOld gMut : Game) (S D : List String)
    (hteams : gMut.teams = gOld.teams)
    (hdist : namesCIDistinct (gOld.teams.map TeamData.team_name))
    (hndOld : noDupAnswers gOld.questions)
    (hndMut : noDupAnswers gMut.questions)
    (haggOld : aggOK gOld)
    (hclean : ∀ n f, isAggField f → (∀ d ∈ D, lowerStr d ≠ lowerStr n) →
      findSum gMut.questions n f = findSum gOld.questions n f)
    (hcov : ∀ d ∈ D, ∃ s ∈ S, lowerStr s = lowerStr d) :
    aggOK (S.foldl Game.recalculate_team_score gMut) := by
  intro t ht
  have hqFin : (S.foldl Game.recalculate_team_score gMut).questions
      = gMut.questions := foldl_recalc_questions S gMut
  obtain ⟨k, hkF, hkt⟩ :=
    mem_getD_of_mem (S.foldl Game.recalculate_team_score gMut).teams t dTeam ht
  have hkM : k < gMut.teams.length := by
    rw [foldl_recalc_teams_length] at hkF
    exact hkF
  have hdistM : namesCIDistinct (gMut.teams.map TeamData.team_name) := by
    rw [hteams]
    exact hdist
  have hchar := foldl_recalc_teams_getD S gMut k hkM hdistM
  by_cases hm : ∃ s ∈ S, eqCI (gMut.teams.getD k dTeam).team_name s = true
  · rw [if_pos hm] at hchar
    rw [← hkt, hchar, hqFin]
    refine ⟨?_, ?_, ?_⟩ <;>
      exact findSum_eq_answersSum gMut.questions _ _ hndMut
  · rw [if_neg hm] at hchar
    have hOldMem : gMut.teams.getD k dTeam ∈ gOld.teams := by
      rw [← hteams]
      exact getD_mem _ _ hkM _
    have hOld := haggOld _ hOldMem
    have hcleanN : ∀ d ∈ D,
        lowerStr d ≠ lowerStr (gMut.teams.getD k dTeam).team_name := by
      intro d hd hc
      obtain ⟨s, hs, hls⟩ := hcov d hd
      exact hm ⟨s, hs, (eqCI_true_iff _ _).mpr (hc ▸ hls.symm)⟩
    have key : ∀ f, isAggField f →
        answersSum gMut.questions (gMut.teams.getD k dTeam).team_name f
          = answersSum gOld.questions (gMut.teams.getD k dTeam).team_name f := by
      intro f hf
      rw [← findSum_eq_answersSum _ _ _ hndMut,
        ← findSum_eq_answersSum _ _ _ hndOld]
      exact hclean _ f hf hcleanN
    rw [← hkt, hchar, hqFin]
    exact ⟨hOld.1.trans (key _ (Or.inl rfl)).symm,
      hOld.2.1.trans (key _ (Or.inr (Or.inl rfl))).symm,
      hOld.2.2.trans (key _ (Or.inr (Or.inr rfl))).symm⟩

/-! ### Preservation of the invariant, operation by operation -/

lemma qFilterSum_congr_answers (q q' : Question) (n : String)
    (f : ScoreData → Int) (h : q'.answers = q.answers) :
    qFilterSum n f q' = qFilterSum n f q := by
  unfold qFilterSum
  rw [h]

lemma qContrib_congr_answers (q q' : Question) (n : String)
    (f : ScoreData → Int) (h : q'.answers = q.answers) :
    qContrib n f q' = qContrib n f q := by
  unfold qContrib
  rw [h]

/-- The invariant reads only `questions`, `teams` and
`current_question_number`; any state agreeing on those three inherits
it. -/
lemma Inv_iff_of_parts (g g' : Game) (hq : g'.questions = g.questions)
    (ht : g'.teams = g.teams)
    (hc : g'.current_question_number = g.current_question_number) :
    Inv g' ↔ Inv g := by
  unfold Inv noDupAnswers answersHaveTeams aggOK namesCIDistinct
  rw [hq, ht, hc]

lemma inv_init (code : String) : Inv (Game.new code) := by
  refine ⟨⟨Nat.le_refl 1, Nat.le_refl 1⟩, ?_, ?_, ?_, ?_⟩
  · intro q hq
    rw [show (Game.new code).questions = [initialQuestion] from rfl,
      List.mem_singleton] at hq
    subst hq
    simp [namesCIDistinct, initialQuestion]
  · simp [Game.new, namesCIDistinct]
  · intro q hq a ha
    rw [show (Game.new code).questions = [initialQuestion] from rfl,
      List.mem_singleton] at hq
    subst hq
    simp [initialQuestion] at ha
  · intro t ht
    simp [Game.new] at ht

/-- A question with no answers contributes nothing to any aggregate. -/
lemma qFilterSum_no_answers (q : Question) (n : String) (f : ScoreData → Int)
    (h : q.answers = []) : qFilterSum n f q = 0 := by
  unfold qFilterSum
  rw [h]
  rfl

/-- Build the invariant for a state from explicit descriptions of its
three relevant projections. -/
lemma Inv_build (g' : Game) (qs : List Question) (T : List TeamData) (c : Nat)
    (hq : g'.questions = qs) (ht : g'.teams = T)
    (hc : g'.current_question_number = c)
    (h1 : 1 ≤ c) (h2 : c ≤ qs.length)
    (hnd : noDupAnswers qs)
    (hdist : namesCIDistinct (T.map TeamData.team_name))
    (hat : ∀ q ∈ qs, ∀ a ∈ q.answers, ∃ t ∈ T, eqCI t.team_name a.team_name = true)
    (hagg : ∀ t ∈ T,
      t.score.question_points
        = answersSum qs t.team_name (fun s => s.question_points) ∧
      t.score.bonus_points
        = answersSum qs t.team_name (fun s => s.bonus_points) ∧
      t.score.speed_bonus_points
        = answersSum qs t.team_name (fun s => s.speed_bonus_points)) :
    Inv g' := by
  unfold Inv noDupAnswers answersHaveTeams aggOK
  rw [hq, ht, hc]
  exact ⟨⟨h1, h2⟩, hnd, hdist, hat, hagg⟩

lemma inv_next_question (g : Game) (h : Inv g) : Inv g.next_question := by
  obtain ⟨⟨h1, h2⟩, hnd, hdist, hat, hagg⟩ := h
  unfold Game.next_question Game.stop_timer
  dsimp only
  split
  · rename_i hgt
    refine Inv_build _ (g.questions ++ [_]) g.teams
      (g.current_question_number + 1) rfl rfl rfl (by omega)
      (by simp; omega) ?_ hdist ?_ ?_
    · intro q hq
      rcases List.mem_append.mp hq with hm | hm
      · exact hnd q hm
      · rw [List.mem_singleton] at hm
        subst hm
        simp [namesCIDistinct, Game.create_question_from_settings]
    · intro q hq a ha
      rcases List.mem_append.mp hq with hm | hm
      · exact hat q hm a ha
      · rw [List.mem_singleton] at hm
        subst hm
        simp [Game.create_question_from_settings] at ha
    · intro t ht
      have := hagg t ht
      rw [answersSum_append_one, answersSum_append_one, answersSum_append_one]
      rw [qFilterSum_no_answers _ _ _ rfl, qFilterSum_no_answers _ _ _ rfl,
        qFilterSum_no_answers _ _ _ rfl]
      simpa using this
  · rename_i hle
    refine Inv_build _ g.questions g.teams (g.current_question_number + 1)
      rfl rfl rfl (by omega) (by omega) hnd hdist hat hagg

lemma inv_prev_question (g : Game) (h : Inv g) :
    Inv (match g.prev_question with | .ok g' => g' | .error _ => g) := by
  obtain ⟨⟨h1, h2⟩, hnd, hdist, hat, hagg⟩ := h
  unfold Game.prev_question
  by_cases hle : g.current_question_number ≤ 1
  · rw [if_pos hle]
    exact ⟨⟨h1, h2⟩, hnd, hdist, hat, hagg⟩
  · rw [if_neg hle]
    exact Inv_build _ g.questions g.teams (g.current_question_number - 1)
      rfl rfl rfl (by omega) (by omega) hnd hdist hat hagg

lemma inv_update_game_settings (g : Game) (s : GameSettings) (h : Inv g) :
    Inv (g.update_game_settings s) := by
  obtain ⟨⟨h1, h2⟩, hnd, hdist, hat, hagg⟩ := h
  have hφ : ∀ q : Question,
      ((if !q.has_answers then
          { q with
              timer_duration := s.default_timer_duration
              question_points := s.default_question_points
              bonus_increment := s.default_bonus_increment
              question_kind := s.default_question_type
              question_config :=
                match s.default_question_type with
                | .standard => .standard
                | .multiAnswer => .multiAnswer
                | .multipleChoice => .multipleChoice s.default_mc_config
              speed_bonus_enabled := s.speed_bonus_enabled }
        else q) : Question).answers = q.answers := by
    intro q
    split <;> rfl
  unfold Game.update_game_settings
  dsimp only
  have core : ∀ g' : Game,
      g'.questions = g.questions.map (fun question =>
        if !question.has_answers then
          { question with
              timer_duration := s.default_timer_duration
              question_points := s.default_question_points
              bonus_increment := s.default_bonus_increment
              question_kind := s.default_question_type
              question_config :=
                match s.default_question_type with
                | .standard => .standard
                | .multiAnswer => .multiAnswer
                | .multipleChoice => .multipleChoice s.default_mc_config
              speed_bonus_enabled := s.speed_bonus_enabled }
        else question) →
      g'.teams = g.teams → g'.current_question_number = g.current_question_number →
      Inv g' := by
    intro g' hq ht hc
    refine ⟨⟨by omega, by rw [hq, hc]; simpa using h2⟩, ?_, by rw [ht]; exact hdist,
      ?_, ?_⟩
    · intro q hq'
      rw [hq, List.mem_map] at hq'
      obtain ⟨q0, hq0, rfl⟩ := hq'
      unfold namesCIDistinct
      rw [hφ q0]
      exact hnd q0 hq0
    · intro q hq' a ha
      rw [hq, List.mem_map] at hq'
      obtain ⟨q0, hq0, rfl⟩ := hq'
      rw [hφ q0] at ha
      obtain ⟨t, ht0, he⟩ := hat q0 hq0 a ha
      exact ⟨t, ht ▸ ht0, he⟩
    · intro t ht'
      rw [ht] at ht'
      have := hagg t ht'
      rw [hq, answersSum_map_answers_eq _ _ hφ, answersSum_map_answers_eq _ _ hφ,
        answersSum_map_answers_eq _ _ hφ]
      exact this
  split
  · exact core _ rfl rfl rfl
  · exact core _ rfl rfl rfl

/-- Replacing a question with one holding the same answers preserves the
invariant (the effect of the two settings updates on a hit question). -/
lemma inv_set_same_answers (g : Game) (idx : Nat) (q' : Question)
    (hidx : idx < g.questions.length)
    (hans : q'.answers = (g.questions.getD idx initialQuestion).answers)
    (h : Inv g) :
    ∀ g' : Game, g'.questions = g.questions.set idx q' → g'.teams = g.teams →
      g'.current_question_number = g.current_question_number → Inv g' := by
  obtain ⟨⟨h1, h2⟩, hnd, hdist, hat, hagg⟩ := h
  intro g' hq ht hc
  have hmemidx : g.questions.getD idx initialQuestion ∈ g.questions :=
    getD_mem _ _ hidx _
  refine Inv_build g' (g.questions.set idx q') g.teams
    g.current_question_number hq ht hc (by omega) (by simp; omega) ?_ hdist ?_ ?_
  · intro q hqm
    rcases List.mem_or_eq_of_mem_set hqm with hm | hm
    · exact hnd q hm
    · subst hm
      unfold namesCIDistinct
      rw [hans]
      exact hnd _ hmemidx
  · intro q hqm a ha
    rcases List.mem_or_eq_of_mem_set hqm with hm | hm
    · exact hat q hm a ha
    · subst hm
      rw [hans] at ha
      exact hat _ hmemidx a ha
  · intro t ht'
    have := hagg t ht'
    rw [answersSum_set _ _ _ _ _ (qFilterSum_congr_answers _ _ _ _ hans),
      answersSum_set _ _ _ _ _ (qFilterSum_congr_answers _ _ _ _ hans),
      answersSum_set _ _ _ _ _ (qFilterSum_congr_answers _ _ _ _ hans)]
    exact this

lemma inv_update_question_settings (g : Game) (qn td qp bi : Nat)
    (k : QuestionKind) (sb : Bool) (h : Inv g) :
    Inv (match g.update_question_settings qn td qp bi k sb with
      | .ok g' => g'
      | .error _ => g) := by
  unfold Game.update_question_settings
  by_cases hidx : qn - 1 ≥ g.questions.length
  · rw [if_pos hidx]
    exact h
  · rw [if_neg hidx]
    by_cases hha : (g.questions.getD (qn - 1) initialQuestion).has_answers = true
    · rw [if_pos hha]
      exact h
    · rw [if_neg hha]
      dsimp only
      by_cases hcond :
          (qn = g.current_question_number && !g.timer_running) = true
      · rw [if_pos hcond]
        dsimp only
        refine inv_set_same_answers g (qn - 1) _ (by omega) ?_ h _ rfl rfl rfl
        split <;> rfl
      · rw [if_neg hcond]
        dsimp only
        refine inv_set_same_answers g (qn - 1) _ (by omega) ?_ h _ rfl rfl rfl
        split <;> rfl

lemma inv_update_type_specific_settings (g : Game) (qn : Nat)
    (cfg : QuestionConfig) (h : Inv g) :
    Inv (match g.update_type_specific_settings qn cfg with
      | some (.ok g') => g'
      | _ => g) := by
  unfold Game.update_type_specific_settings
  dsimp only
  cases hq? : g.questions[qn - 1]? with
  | none => exact h
  | some question =>
      have hlt : qn - 1 < g.questions.length := by
        by_contra hcon
        rw [List.getElem?_eq_none (by omega)] at hq?
        exact Option.noConfusion hq?
      have hqv : question = g.questions.getD (qn - 1) initialQuestion := by
        rw [List.getD_eq_getElem?_getD, hq?]
        rfl
      dsimp only
      by_cases hha : question.has_answers = true
      · rw [if_pos hha]
        exact h
      · rw [if_neg hha]
        by_cases hk : cfg.kind ≠ question.question_kind
        · rw [if_pos hk]
          exact h
        · rw [if_neg hk]
          dsimp only
          exact inv_set_same_answers g (qn - 1)
            { question with question_config := cfg } hlt (by rw [hqv]) h _
            rfl rfl rfl

lemma inv_override_team_score (g : Game) (n : String) (p : Int) (h : Inv g) :
    Inv (g.override_team_score n p).1 := by
  unfold Game.override_team_score
  split
  · dsimp only
    obtain ⟨⟨h1, h2⟩, hnd, hdist, hat, hagg⟩ := h
    have hnames : ((g.updateTeam n fun t =>
        { t with score := { t.score with override_points := p } }).teams).map
          TeamData.team_name = g.teams.map TeamData.team_name := by
      unfold Game.updateTeam
      dsimp only
      apply updateFirst_map
      intro x
      rfl
    refine Inv_build _ g.questions _ g.current_question_number rfl rfl rfl
      (by omega) h2 hnd (by rw [hnames]; exact hdist) ?_ ?_
    · intro q hq a ha
      exact exists_team_of_names_eq g.teams _ hnames _ (hat q hq a ha)
    · intro t ht
      rcases updateFirst_mem _ _ _ t ht with hmem | ⟨y, hy, rfl⟩
      · exact hagg t hmem
      · exact hagg y hy
  · exact h

/-! ### The single-question mutation + recalculation master lemma -/

/-- The first-match contribution of a bare answer list. -/
def listContrib (l : List TeamQuestion) (n : String) (f : ScoreData → Int) : Int :=
  match l.find? (fun a => eqCI a.team_name n) with
  | some a => f a.score
  | none => 0

lemma qContrib_answers (q : Question) (A' : List TeamQuestion) (n : String)
    (f : ScoreData → Int) :
    qContrib n f { q with answers := A' } = listContrib A' n f := rfl

lemma qContrib_eq_listContrib (q : Question) (n : String) (f : ScoreData → Int) :
    qContrib n f q = listContrib q.answers n f := rfl

lemma listContrib_append_not (l : List TeamQuestion) (x : TeamQuestion)
    (n : String) (f : ScoreData → Int) (hx : eqCI x.team_name n = false) :
    listContrib (l ++ [x]) n f = listContrib l n f := by
  induction l with
  | nil =>
      unfold listContrib
      rw [List.nil_append, List.find?_cons, hx]
  | cons a rest ih =>
      unfold listContrib at ih ⊢
      rw [List.cons_append, List.find?_cons, List.find?_cons]
      cases hpa : eqCI a.team_name n with
      | true => rfl
      | false => exact ih

lemma listContrib_append_zero (l : List TeamQuestion) (x : TeamQuestion)
    (n : String) (f : ScoreData → Int) (hzero : f x.score = 0) :
    listContrib (l ++ [x]) n f = listContrib l n f := by
  induction l with
  | nil =>
      unfold listContrib
      rw [List.nil_append, List.find?_cons]
      cases hpx : eqCI x.team_name n with
      | true => exact hzero
      | false => rfl
  | cons a rest ih =>
      unfold listContrib at ih ⊢
      rw [List.cons_append, List.find?_cons, List.find?_cons]
      cases hpa : eqCI a.team_name n with
      | true => rfl
      | false => exact ih

lemma aggField_new_zero (f : ScoreData → Int) (hf : isAggField f) :
    f ScoreData.new = 0 := by
  rcases hf with hf | hf | hf <;> (subst hf; rfl)

/-- One-question mutation master: if index `idx` gets new answers `A'`
(duplicate-free, all from joined teams, and changing first-match
contributions only for names covered by `D`), then recalculating over any
`S` that covers `D` case-insensitively yields an invariant state. -/
lemma inv_mutation_master (g : Game) (idx : Nat) (A' : List TeamQuestion)
    (S D : List String) (h : Inv g) (hidx : idx < g.questions.length)
    (hnd' : namesCIDistinct (A'.map TeamQuestion.team_name))
    (hat' : ∀ a ∈ A', ∃ t ∈ g.teams, eqCI t.team_name a.team_name = true)
    (hcontrib : ∀ n f, isAggField f → (∀ d ∈ D, lowerStr d ≠ lowerStr n) →
      listContrib A' n f
        = qContrib n f (g.questions.getD idx initialQuestion))
    (hcov : ∀ d ∈ D, ∃ s ∈ S, lowerStr s = lowerStr d)
    (g₁ : Game)
    (hq1 : g₁.questions = g.questions.set idx
      { g.questions.getD idx initialQuestion with answers := A' })
    (ht1 : g₁.teams = g.teams)
    (hc1 : g₁.current_question_number = g.current_question_number) :
    Inv (S.foldl Game.recalculate_team_score g₁) := by
  obtain ⟨⟨h1, h2⟩, hnd, hdist, hat, hagg⟩ := h
  have hndMut : noDupAnswers g₁.questions := by
    rw [hq1]
    intro q hq
    rcases List.mem_or_eq_of_mem_set hq with hm | hm
    · exact hnd q hm
    · subst hm
      exact hnd'
  have hclean : ∀ n f, isAggField f → (∀ d ∈ D, lowerStr d ≠ lowerStr n) →
      findSum g₁.questions n f = findSum g.questions n f := by
    intro n f hf hcl
    rw [hq1]
    refine findSum_set _ _ _ _ _ ?_
    rw [qContrib_answers]
    exact hcontrib n f hf hcl
  have haggF := aggOK_after_recalcs g g₁ S D ht1 hdist hnd hndMut hagg hclean hcov
  have hqF := foldl_recalc_questions S g₁
  have hnamesF : (S.foldl Game.recalculate_team_score g₁).teams.map
      TeamData.team_name = g.teams.map TeamData.team_name := by
    rw [foldl_recalc_teams_names, ht1]
  refine Inv_build _ g₁.questions _ g.current_question_number hqF rfl
    (by rw [foldl_recalc_cqn]; exact hc1) (by omega) ?_ hndMut
    (by rw [hnamesF]; exact hdist) ?_ ?_
  · rw [hq1]
    simp
    omega
  · intro q hq a ha
    refine exists_team_of_names_eq g.teams _ hnamesF _ ?_
    rw [hq1] at hq
    rcases List.mem_or_eq_of_mem_set hq with hm | hm
    · exact hat q hm a ha
    · subst hm
      exact hat' a ha
  · intro t ht
    have := haggF t ht
    rwa [hqF] at this

/-! ### Shape of `recalculate_speed_bonuses` and the walked answer lists -/

lemma recalc_speed_bonuses_teams (g : Game) (idx : Nat) :
    (g.recalculate_speed_bonuses idx).1.teams = g.teams := by
  unfold Game.recalculate_speed_bonuses
  dsimp only
  split <;> rfl

lemma recalc_speed_bonuses_questions (g : Game) (idx : Nat) :
    (g.recalculate_speed_bonuses idx).1.questions
      = g.questions.set idx
          { g.questions.getD idx initialQuestion with
              answers :=
                if (g.questions.getD idx initialQuestion).speed_bonus_enabled then
                  (speedWalk g.game_settings.speed_bonus_num_teams
                    g.game_settings.speed_bonus_first_place_points 0
                    (g.questions.getD idx initialQuestion).answers).1
                else (clearSpeedWalk
                  (g.questions.getD idx initialQuestion).answers).1 } := by
  unfold Game.recalculate_speed_bonuses
  dsimp only
  cases hsb : (g.questions.getD idx initialQuestion).speed_bonus_enabled <;>
    simp [hsb]

lemma recalc_speed_bonuses_snd (g : Game) (idx : Nat) :
    (g.recalculate_speed_bonuses idx).2
      = if (g.questions.getD idx initialQuestion).speed_bonus_enabled then
          (speedWalk g.game_settings.speed_bonus_num_teams
            g.game_settings.speed_bonus_first_place_points 0
            (g.questions.getD idx initialQuestion).answers).2
        else (clearSpeedWalk (g.questions.getD idx initialQuestion).answers).2 := by
  unfold Game.recalculate_speed_bonuses
  dsimp only
  cases hsb : (g.questions.getD idx initialQuestion).speed_bonus_enabled <;>
    simp [hsb]

lemma walkIte_length (nt fp : Nat) (b : Bool) (l : List TeamQuestion) :
    (if b then (speedWalk nt fp 0 l).1 else (clearSpeedWalk l).1).length
      = l.length := by
  split
  · exact speedWalk_length nt fp l 0
  · exact clearSpeedWalk_length l

lemma walkIte_getD_name (nt fp : Nat) (b : Bool) (l : List TeamQuestion)
    (i : Nat) :
    (((if b then (speedWalk nt fp 0 l).1 else (clearSpeedWalk l).1).getD i
        dAns)).team_name = (l.getD i dAns).team_name := by
  split
  · exact (speedWalk_preserves nt fp l 0 i).1
  · exact (clearSpeedWalk_preserves l i).1

lemma walkIte_dirty (nt fp : Nat) (b : Bool) (l : List TeamQuestion) (m : Nat)
    (hm : m < l.length)
    (hne : (if b then (speedWalk nt fp 0 l).1 else (clearSpeedWalk l).1).getD m
        dAns ≠ l.getD m dAns) :
    (l.getD m dAns).team_name
      ∈ (if b then (speedWalk nt fp 0 l).2 else (clearSpeedWalk l).2) := by
  by_cases hb : b = true
  · rw [if_pos hb] at hne ⊢
    exact speedWalk_dirty nt fp l 0 m hm hne
  · rw [if_neg hb] at hne ⊢
    exact clearSpeedWalk_dirty l m hm hne

lemma walkIte_map_name (nt fp : Nat) (b : Bool) (l : List TeamQuestion) :
    (if b then (speedWalk nt fp 0 l).1 else (clearSpeedWalk l).1).map
        TeamQuestion.team_name = l.map TeamQuestion.team_name := by
  refine map_name_eq_of_getD l _ (walkIte_length nt fp b l) ?_
  exact walkIte_getD_name nt fp b l

lemma hat_of_names (T : List TeamData) (A' A : List TeamQuestion)
    (hmapeq : A'.map TeamQuestion.team_name = A.map TeamQuestion.team_name)
    (hat : ∀ a ∈ A, ∃ t ∈ T, eqCI t.team_name a.team_name = true) :
    ∀ a ∈ A', ∃ t ∈ T, eqCI t.team_name a.team_name = true := by
  intro a ha
  have hmem : a.team_name ∈ A'.map TeamQuestion.team_name :=
    List.mem_map_of_mem _ ha
  rw [hmapeq, List.mem_map] at hmem
  obtain ⟨a0, ha0, hname⟩ := hmem
  obtain ⟨t, ht, he⟩ := hat a0 ha0
  refine ⟨t, ht, ?_⟩
  rw [← hname]
  exact he

/-! ### Coverage bookkeeping for the recalculated team lists -/

lemma foldl_addUnique_base (L : List String) (base : List String) :
    ∀ x ∈ base, x ∈ L.foldl addUnique base := by
  induction L generalizing base with
  | nil => intro x hx; exact hx
  | cons t L ih =>
      intro x hx
      rw [List.foldl_cons]
      apply ih
      unfold addUnique
      split
      · exact hx
      · exact List.mem_append_left _ hx

lemma foldl_addUnique_mem (L : List String) (base : List String) :
    ∀ x ∈ L, x ∈ L.foldl addUnique base := by
  induction L generalizing base with
  | nil => intro x hx; simp at hx
  | cons t L ih =>
      intro x hx
      rw [List.foldl_cons]
      rcases List.mem_cons.mp hx with hx | hx
      · subst hx
        apply foldl_addUnique_base
        unfold addUnique
        split
        · rename_i hc
          simpa using hc
        · simp
      · exact ih _ x hx

lemma foldl_recalc_if_eq_filter (tn : String) (ts : List String) (g : Game) :
    ts.foldl (fun g team =>
        if team ≠ tn then g.recalculate_team_score team else g) g
      = (ts.filter (fun t => t != tn)).foldl Game.recalculate_team_score g := by
  induction ts generalizing g with
  | nil => rfl
  | cons t ts ih =>
      rw [List.foldl_cons, List.filter_cons]
      by_cases h : t = tn
      · rw [if_neg (fun hne => hne h), if_neg (by simp [h])]
        exact ih g
      · rw [if_pos h, if_pos (by simp [h]), List.foldl_cons]
        exact ih _

lemma getD_set_self {α : Type} (l : List α) (i : Nat) (x d : α)
    (hi : i < l.length) : (l.set i x).getD i d = x := by
  rw [List.getD_eq_getElem?_getD, List.getElem?_set_eq_of_lt _ hi]
  rfl

/-- Appending a fresh zero-scored answer for a team with no prior answer
on the current question preserves the invariant without recalculation
(the non-auto-scored `add_answer` path). -/
lemma inv_append_zero_answer (g : Game) (tn : String) (x : TeamQuestion)
    (h : Inv g)
    (hside : ∃ tm ∈ g.teams, eqCI tm.team_name tn = true)
    (hxn : x.team_name = tn)
    (hzero : ∀ f, isAggField f → f x.score = 0)
    (hnotn : ∀ a ∈ g.currentQuestion.answers, eqCI a.team_name tn = false) :
    Inv (g.setCurrentQuestion
      { g.currentQuestion with
          answers := g.currentQuestion.answers ++ [x] }) := by
  have hidx : g.current_question_number - 1 < g.questions.length := by
    obtain ⟨⟨h1, h2⟩, -, -, -, -⟩ := h
    omega
  have hndA : namesCIDistinct
      (g.currentQuestion.answers.map TeamQuestion.team_name) :=
    h.2.1 _ (getD_mem _ _ hidx _)
  have hatA : ∀ a ∈ g.currentQuestion.answers,
      ∃ t ∈ g.teams, eqCI t.team_name a.team_name = true :=
    h.2.2.2.1 _ (getD_mem _ _ hidx _)
  have hmapAx : (g.currentQuestion.answers ++ [x]).map TeamQuestion.team_name
      = g.currentQuestion.answers.map TeamQuestion.team_name ++ [tn] := by
    rw [List.map_append]
    simp [hxn]
  have hndAx : namesCIDistinct
      ((g.currentQuestion.answers ++ [x]).map TeamQuestion.team_name) := by
    rw [hmapAx]
    unfold namesCIDistinct
    rw [List.pairwise_append]
    refine ⟨hndA, by simp, ?_⟩
    intro a ha b hb
    rw [List.mem_singleton] at hb
    subst hb
    rw [List.mem_map] at ha
    obtain ⟨a0, ha0, rfl⟩ := ha
    exact hnotn a0 ha0
  have hatAx : ∀ a ∈ g.currentQuestion.answers ++ [x],
      ∃ t ∈ g.teams, eqCI t.team_name a.team_name = true := by
    intro a ha
    rcases List.mem_append.mp ha with hm | hm
    · exact hatA a hm
    · rw [List.mem_singleton] at hm
      subst hm
      rw [hxn]
      exact hside
  exact inv_mutation_master g (g.current_question_number - 1)
    (g.currentQuestion.answers ++ [x]) [] [] h hidx hndAx hatAx
    (fun n f hf _ => listContrib_append_zero _ _ _ _ (hzero f hf))
    (fun d hd => absurd hd (List.not_mem_nil d))
    _ rfl rfl rfl

/-- The auto-scored `add_answer` path: append the inherited-score answer,
recompute the question's speed bonuses, and recalculate the submitting
team plus every team the speed walk touched. -/
lemma inv_append_recalc (g g₂ : Game) (tn : String) (x : TeamQuestion)
    (h : Inv g)
    (hside : ∃ tm ∈ g.teams, eqCI tm.team_name tn = true)
    (hxn : x.team_name = tn)
    (hnotn : ∀ a ∈ g.currentQuestion.answers, eqCI a.team_name tn = false)
    (hg₂ : g₂ = g.setCurrentQuestion
      { g.currentQuestion with
          answers := g.currentQuestion.answers ++ [x] }) :
    Inv ((g₂.recalculate_speed_bonuses
        (g₂.current_question_number - 1)).2.foldl
      (fun gg team => if team ≠ tn then gg.recalculate_team_score team else gg)
      ((g₂.recalculate_speed_bonuses
        (g₂.current_question_number - 1)).1.recalculate_team_score tn)) := by
  subst hg₂
  have hidx : g.current_question_number - 1 < g.questions.length := by
    obtain ⟨⟨h1, h2⟩, -, -, -, -⟩ := h
    omega
  have hndA : namesCIDistinct
      (g.currentQuestion.answers.map TeamQuestion.team_name) :=
    h.2.1 _ (getD_mem _ _ hidx _)
  have hatA : ∀ a ∈ g.currentQuestion.answers,
      ∃ t ∈ g.teams, eqCI t.team_name a.team_name = true :=
    h.2.2.2.1 _ (getD_mem _ _ hidx _)
  have hmapAx : (g.currentQuestion.answers ++ [x]).map TeamQuestion.team_name
      = g.currentQuestion.answers.map TeamQuestion.team_name ++ [tn] := by
    rw [List.map_append]
    simp [hxn]
  have hndAx : namesCIDistinct
      ((g.currentQuestion.answers ++ [x]).map TeamQuestion.team_name) := by
    rw [hmapAx]
    unfold namesCIDistinct
    rw [List.pairwise_append]
    refine ⟨hndA, by simp, ?_⟩
    intro a ha b hb
    rw [List.mem_singleton] at hb
    subst hb
    rw [List.mem_map] at ha
    obtain ⟨a0, ha0, rfl⟩ := ha
    exact hnotn a0 ha0
  have hatAx : ∀ a ∈ g.currentQuestion.answers ++ [x],
      ∃ t ∈ g.teams, eqCI t.team_name a.team_name = true := by
    intro a ha
    rcases List.mem_append.mp ha with hm | hm
    · exact hatA a hm
    · rw [List.mem_singleton] at hm
      subst hm
      rw [hxn]
      exact hside
  -- state after the append
  have hcq2 : (g.setCurrentQuestion
      { g.currentQuestion with
          answers := g.currentQuestion.answers ++ [x] }).current_question_number
        - 1 = g.current_question_number - 1 := rfl
  have e2 : (g.setCurrentQuestion
      { g.currentQuestion with
          answers := g.currentQuestion.answers ++ [x] }).questions.getD
        (g.current_question_number - 1) initialQuestion
      = { g.currentQuestion with
          answers := g.currentQuestion.answers ++ [x] } :=
    getD_set_self _ _ _ _ hidx
  -- the walked answer list and the recorded dirty teams
  rw [foldl_recalc_if_eq_filter tn]
  refine inv_mutation_master g (g.current_question_number - 1)
    (if g.currentQuestion.speed_bonus_enabled then
      (speedWalk g.game_settings.speed_bonus_num_teams
        g.game_settings.speed_bonus_first_place_points 0
        (g.currentQuestion.answers ++ [x])).1
    else (clearSpeedWalk (g.currentQuestion.answers ++ [x])).1)
    (tn :: ((g.setCurrentQuestion
        { g.currentQuestion with
            answers := g.currentQuestion.answers ++ [x] }).recalculate_speed_bonuses
          (g.current_question_number - 1)).2.filter (fun t => t != tn))
    (tn :: ((g.setCurrentQuestion
        { g.currentQuestion with
            answers := g.currentQuestion.answers ++ [x] }).recalculate_speed_bonuses
          (g.current_question_number - 1)).2)
    h hidx ?_ ?_ ?_ ?_ _ ?_ (recalc_speed_bonuses_teams _ _) (recalc_speed_bonuses_cqn _ _)
  · -- no duplicate names in the walked list
    unfold namesCIDistinct
    rw [walkIte_map_name]
    exact hndAx
  · -- every walked answer belongs to a joined team
    exact hat_of_names g.teams _ (g.currentQuestion.answers ++ [x])
      (walkIte_map_name _ _ _ _) hatAx
  · -- contributions change only for covered teams
    intro n f hf hclean
    have hcltn : lowerStr tn ≠ lowerStr n :=
      hclean tn (List.mem_cons_self _ _)
    have hsnd := recalc_speed_bonuses_snd (g.setCurrentQuestion
      { g.currentQuestion with
          answers := g.currentQuestion.answers ++ [x] })
      (g.current_question_number - 1)
    rw [e2] at hsnd
    have step1 : listContrib
        (if g.currentQuestion.speed_bonus_enabled then
          (speedWalk g.game_settings.speed_bonus_num_teams
            g.game_settings.speed_bonus_first_place_points 0
            (g.currentQuestion.answers ++ [x])).1
        else (clearSpeedWalk (g.currentQuestion.answers ++ [x])).1) n f
        = listContrib (g.currentQuestion.answers ++ [x]) n f := by
      unfold listContrib
      refine contrib_list_eq_of_clean _ (g.currentQuestion.answers ++ [x]) _
        (walkIte_length _ _ _ _) (walkIte_getD_name _ _ _ _) ?_ n hclean f
      intro m hm hne
      refine ⟨((g.currentQuestion.answers ++ [x]).getD m dAns).team_name,
        ?_, rfl⟩
      apply List.mem_cons_of_mem
      rw [hsnd]
      exact walkIte_dirty _ _ _ _ m hm hne
    have step2 : listContrib (g.currentQuestion.answers ++ [x]) n f
        = listContrib g.currentQuestion.answers n f := by
      refine listContrib_append_not _ _ _ _ ?_
      rw [hxn, eqCI_false_iff]
      exact hcltn
    rw [step1, step2]
    rfl
  · -- coverage: the submitter and every dirty walk team get recalculated
    intro d hd
    rcases List.mem_cons.mp hd with hd | hd
    · exact ⟨tn, List.mem_cons_self _ _, by rw [hd]⟩
    · by_cases hdt : d = tn
      · exact ⟨tn, List.mem_cons_self _ _, by rw [hdt]⟩
      · exact ⟨d, List.mem_cons_of_mem _
          (List.mem_filter.mpr ⟨hd, by simp [hdt]⟩), rfl⟩
  · -- the questions after the walk
    rw [recalc_speed_bonuses_questions, hcq2, e2]
    show ((g.questions.set (g.current_question_number - 1) _).set
      (g.current_question_number - 1) _) = _
    rw [List.set_set]
    rfl

lemma inv_add_answer (g : Game) (tn text : String) (h : Inv g)
    (hside : ∃ tm ∈ g.teams, eqCI tm.team_name tn = true) :
    Inv (g.add_answer tn text).1 := by
  by_cases hany :
      (g.currentQuestion.answers.any (fun a => eqCI a.team_name tn)) = true
  · simp only [Game.add_answer, if_pos hany]
    exact h
  · have hnotn : ∀ a ∈ g.currentQuestion.answers,
        eqCI a.team_name tn = false := by
      intro a ha
      cases he : eqCI a.team_name tn with
      | false => rfl
      | true => exact absurd (List.any_eq_true.mpr ⟨a, ha, he⟩) hany
    simp only [Game.add_answer, if_neg hany]
    split
    · exact h
    · split
      · exact inv_append_recalc g _ tn _ h hside rfl hnotn rfl
      · rename_i hauto
        refine inv_append_zero_answer g tn _ h hside rfl ?_ hnotn
        intro f hf
        have hnone : (g.currentQuestion.answers.findSome? (fun existing =>
            if existing.score.question_points
                = (g.currentQuestion.question_points : Int) then
              match normalize_answer_text existing.content with
              | some existing_text =>
                  if existing_text = lowerStr (trimStr text) then
                    some ((g.currentQuestion.question_points : Int),
                      existing.score.bonus_points)
                  else none
              | none => none
            else none)) = none :=
          Option.not_isSome_iff_eq_none.mp hauto
        rw [hnone]
        exact aggField_new_zero f hf

lemma set_getD_name (l : List TeamQuestion) (i : Nat) (x : TeamQuestion)
    (hi : i < l.length) (hx : x.team_name = (l.getD i dAns).team_name) :
    ∀ m, ((l.set i x).getD m dAns).team_name = (l.getD m dAns).team_name := by
  intro m
  by_cases hmi : m = i
  · subst hmi
    rw [getD_set_self _ _ _ _ hi, hx]
  · rw [List.getD_eq_getElem?_getD, List.getElem?_set_ne (by omega),
      ← List.getD_eq_getElem?_getD]

lemma set_getD_unchanged (l : List TeamQuestion) (i : Nat) (x : TeamQuestion) :
    ∀ m, m < l.length → m ≠ i →
      (l.set i x).getD m dAns = l.getD m dAns := by
  intro m hm hmi
  rw [List.getD_eq_getElem?_getD, List.getElem?_set_ne (by omega),
    ← List.getD_eq_getElem?_getD]

lemma set_map_name (l : List TeamQuestion) (i : Nat) (x : TeamQuestion)
    (hi : i < l.length) (hx : x.team_name = (l.getD i dAns).team_name) :
    (l.set i x).map TeamQuestion.team_name = l.map TeamQuestion.team_name := by
  refine map_name_eq_of_getD l _ (by simp) ?_
  exact set_getD_name l i x hi hx

/-- The recalculation tail of `score_answer`: replace a question's answer
list by `B`, recompute its speed bonuses, and recalculate every team in
`base` plus every team the walk touched, where `base` covers the names
whose pre-walk contributions changed. -/
lemma inv_set_recalc (g : Game) (idx : Nat) (B : List TeamQuestion)
    (base D0 : List String) (h : Inv g) (hidx : idx < g.questions.length)
    (hndB : namesCIDistinct (B.map TeamQuestion.team_name))
    (hatB : ∀ a ∈ B, ∃ t ∈ g.teams, eqCI t.team_name a.team_name = true)
    (hcontribB : ∀ n f, isAggField f → (∀ d ∈ D0, lowerStr d ≠ lowerStr n) →
      listContrib B n f = qContrib n f (g.questions.getD idx initialQuestion))
    (hcovB : ∀ d ∈ D0, d ∈ base)
    (gM : Game)
    (hqM : gM.questions = g.questions.set idx
      { g.questions.getD idx initialQuestion with answers := B })
    (htM : gM.teams = g.teams)
    (hcM : gM.current_question_number = g.current_question_number) :
    Inv (((gM.recalculate_speed_bonuses idx).2.foldl addUnique base).foldl
      Game.recalculate_team_score (gM.recalculate_speed_bonuses idx).1) := by
  have e2M : gM.questions.getD idx initialQuestion
      = { g.questions.getD idx initialQuestion with answers := B } := by
    rw [hqM]
    exact getD_set_self _ _ _ _ hidx
  have hsnd := recalc_speed_bonuses_snd gM idx
  rw [e2M] at hsnd
  refine inv_mutation_master g idx
    (if ({ g.questions.getD idx initialQuestion with
        answers := B } : Question).speed_bonus_enabled then
      (speedWalk gM.game_settings.speed_bonus_num_teams
        gM.game_settings.speed_bonus_first_place_points 0 B).1
    else (clearSpeedWalk B).1)
    ((gM.recalculate_speed_bonuses idx).2.foldl addUnique base)
    (D0 ++ (gM.recalculate_speed_bonuses idx).2)
    h hidx ?_ ?_ ?_ ?_ _ ?_
    ((recalc_speed_bonuses_teams gM idx).trans htM)
    ((recalc_speed_bonuses_cqn gM idx).trans hcM)
  · unfold namesCIDistinct
    rw [walkIte_map_name]
    exact hndB
  · exact hat_of_names g.teams _ B (walkIte_map_name _ _ _ _) hatB
  · intro n f hf hclean
    have step1 : listContrib
        (if ({ g.questions.getD idx initialQuestion with
            answers := B } : Question).speed_bonus_enabled then
          (speedWalk gM.game_settings.speed_bonus_num_teams
            gM.game_settings.speed_bonus_first_place_points 0 B).1
        else (clearSpeedWalk B).1) n f = listContrib B n f := by
      unfold listContrib
      refine contrib_list_eq_of_clean _ B _
        (walkIte_length _ _ _ _) (walkIte_getD_name _ _ _ _) ?_ n hclean f
      intro m hm hne
      refine ⟨(B.getD m dAns).team_name, ?_, rfl⟩
      apply List.mem_append_right
      rw [hsnd]
      exact walkIte_dirty _ _ _ _ m hm hne
    rw [step1]
    exact hcontribB n f hf
      (fun d hd => hclean d (List.mem_append_left _ hd))
  · intro d hd
    rcases List.mem_append.mp hd with hd | hd
    · exact ⟨d, foldl_addUnique_base _ _ d (hcovB d hd), rfl⟩
    · exact ⟨d, foldl_addUnique_mem _ _ d hd, rfl⟩
  · rw [recalc_speed_bonuses_questions, e2M, hqM, List.set_set]

lemma inv_score_answer (g : Game) (qn : Nat) (tn : String) (sc : ScoreData)
    (h : Inv g) : Inv (g.score_answer qn tn sc).1 := by
  by_cases hge : qn - 1 ≥ g.questions.length
  · simp only [Game.score_answer, if_pos hge]
    exact h
  · have hlen : qn - 1 < g.questions.length := by omega
    simp only [Game.score_answer, if_neg hge]
    cases hfi : (g.questions.getD (qn - 1) initialQuestion).answers.findIdx?
        (fun a => eqCI a.team_name tn) with
    | none => exact h
    | some aidx =>
        obtain ⟨haidx_lt, hpa, -⟩ := List.findIdx?_eq_some_iff_getElem.mp hfi
        have hndA : namesCIDistinct
            ((g.questions.getD (qn - 1) initialQuestion).answers.map
              TeamQuestion.team_name) :=
          h.2.1 _ (getD_mem _ _ hlen _)
        have hatA : ∀ a ∈ (g.questions.getD (qn - 1) initialQuestion).answers,
            ∃ t ∈ g.teams, eqCI t.team_name a.team_name = true :=
          h.2.2.2.1 _ (getD_mem _ _ hlen _)
        have htn : eqCI (((g.questions.getD (qn - 1)
            initialQuestion).answers.getD aidx dAns)).team_name tn = true := by
          rw [List.getD_eq_getElem?_getD, List.getElem?_eq_getElem haidx_lt]
          exact hpa
        have htn' : lowerStr (((g.questions.getD (qn - 1)
            initialQuestion).answers.getD aidx dAns)).team_name
              = lowerStr tn := (eqCI_true_iff _ _).mp htn
        dsimp only
        set A := (g.questions.getD (qn - 1) initialQuestion).answers with hA
        set tgt := A.getD aidx
          { team_name := tn, score := ScoreData.new, content := none,
            question_kind :=
              (g.questions.getD (qn - 1) initialQuestion).question_kind,
            question_config :=
              (g.questions.getD (qn - 1) initialQuestion).question_config }
          with htgt
        set tprime : TeamQuestion := { tgt with score :=
          { sc with speed_bonus_points := tgt.score.speed_bonus_points } }
          with htprime
        have hxname : tprime.team_name = (A.getD aidx dAns).team_name := by
          rw [htprime]
          show tgt.team_name = _
          rw [htgt]
          exact congrArg TeamQuestion.team_name (getD_irrel _ _ haidx_lt _ _)
        split
        · -- MultiAnswer content: no propagation, walk + recalc
          refine inv_set_recalc g (qn - 1) _ [tn] [tn] h hlen ?_ ?_ ?_
            (fun d hd => hd) _ rfl rfl rfl
          · unfold namesCIDistinct
            rw [set_map_name _ _ _ haidx_lt hxname]
            exact hndA
          · exact hat_of_names g.teams _ _
              (set_map_name _ _ _ haidx_lt hxname) hatA
          · intro n f hf hclean
            have hcltn : lowerStr tn ≠ lowerStr n :=
              hclean tn (List.mem_cons_self _ _)
            have step : listContrib (A.set aidx tprime) n f
                = listContrib A n f := by
              unfold listContrib
              refine contrib_list_eq_of_clean [tn] _ _ (by simp)
                (set_getD_name _ _ _ haidx_lt hxname) ?_ n hclean f
              intro m hm hne
              by_cases hmi : m = aidx
              · subst hmi
                exact ⟨tn, List.mem_cons_self _ _, htn'.symm⟩
              · exact absurd (set_getD_unchanged _ _ _ m hm hmi) hne
            rw [step]
            exact (qContrib_eq_listContrib _ _ _).symm
        · -- propagating branch: sync matching answers, then walk + recalc
          rename_i ntext heq
          refine inv_set_recalc g (qn - 1)
            (syncMatching sc ntext aidx 0 (A.set aidx tprime)).1
            (tn :: (syncMatching sc ntext aidx 0 (A.set aidx tprime)).2)
            (tn :: (syncMatching sc ntext aidx 0 (A.set aidx tprime)).2)
            h hlen ?_ ?_ ?_ (fun d hd => hd) _ ?_ rfl rfl
          · unfold namesCIDistinct
            rw [map_name_eq_of_getD _ _ (syncMatching_length _ _ _ _ 0)
              (fun m => syncMatching_getD_name _ _ _ _ 0 m)]
            rw [set_map_name _ _ _ haidx_lt hxname]
            exact hndA
          · refine hat_of_names g.teams _ A ?_ hatA
            rw [map_name_eq_of_getD _ _ (syncMatching_length _ _ _ _ 0)
              (fun m => syncMatching_getD_name _ _ _ _ 0 m)]
            exact set_map_name _ _ _ haidx_lt hxname
          · intro n f hf hclean
            have hcltn : lowerStr tn ≠ lowerStr n :=
              hclean tn (List.mem_cons_self _ _)
            have step1 : listContrib
                (syncMatching sc ntext aidx 0 (A.set aidx tprime)).1 n f
                = listContrib (A.set aidx tprime) n f := by
              unfold listContrib
              refine contrib_list_eq_of_clean _ _ _
                (syncMatching_length _ _ _ _ 0)
                (fun m => syncMatching_getD_name _ _ _ _ 0 m) ?_ n hclean f
              intro m hm hne
              refine ⟨_, List.mem_cons_of_mem _
                (syncMatching_dirty _ _ _ _ 0 m hm hne), rfl⟩
            have step2 : listContrib (A.set aidx tprime) n f
                = listContrib A n f := by
              unfold listContrib
              refine contrib_list_eq_of_clean [tn] _ _ (by simp)
                (set_getD_name _ _ _ haidx_lt hxname) ?_ n
                (fun d hd => by
                  rw [List.mem_singleton] at hd
                  subst hd
                  exact hcltn) f
              intro m hm hne
              by_cases hmi : m = aidx
              · subst hmi
                exact ⟨tn, List.mem_singleton_self _, htn'.symm⟩
              · exact absurd (set_getD_unchanged _ _ _ m hm hmi) hne
            rw [step1, step2]
            exact (qContrib_eq_listContrib _ _ _).symm
          · show (g.questions.set (qn - 1) _).set (qn - 1) _ = _
            rw [List.set_set]

lemma inv_add_team (g : Game) (n : String) (c : TeamColor) (m : List String)
    (h : Inv g) : Inv (g.add_team n c m) := by
  obtain ⟨⟨h1, h2⟩, hnd, hdist, hat, hagg⟩ := h
  unfold Game.add_team
  split
  · -- reconnection: update members/color/connected of the existing record
    have hnames : ((g.updateTeam n fun t =>
        { t with connected := true, team_members := m,
                 team_color := c }).teams).map TeamData.team_name
          = g.teams.map TeamData.team_name := by
      unfold Game.updateTeam
      dsimp only
      apply updateFirst_map
      intro x
      rfl
    refine Inv_build _ g.questions _ g.current_question_number rfl rfl rfl
      (by omega) h2 hnd (by rw [hnames]; exact hdist) ?_ ?_
    · intro q hq a ha
      exact exists_team_of_names_eq g.teams _ hnames _ (hat q hq a ha)
    · intro t ht
      rcases updateFirst_mem _ _ _ t ht with hmem | ⟨y, hy, rfl⟩
      · exact hagg t hmem
      · exact hagg y hy
  · -- a fresh team with a zeroed score is appended
    rename_i hnone
    have hfnone : ∀ t ∈ g.teams, eqCI t.team_name n = false := by
      intro t ht
      have hfind : g.teams.find? (fun t => eqCI t.team_name n) = none := by
        cases hf : g.teams.find? (fun t => eqCI t.team_name n) with
        | none => rfl
        | some t0 =>
            exact absurd (by rw [show g.find_team n = some t0 from hf]; rfl)
              hnone
      have := List.find?_eq_none.mp hfind t ht
      cases he : eqCI t.team_name n with
      | true => exact absurd he this
      | false => rfl
    refine Inv_build _ g.questions (g.teams ++ [_]) g.current_question_number
      rfl rfl rfl (by omega) h2 hnd ?_ ?_ ?_
    · unfold namesCIDistinct
      rw [List.map_append, List.pairwise_append]
      refine ⟨hdist, by simp, ?_⟩
      intro x hx y hy
      simp only [List.map_cons, List.map_nil, List.mem_singleton] at hy
      subst hy
      rw [List.mem_map] at hx
      obtain ⟨t, ht, rfl⟩ := hx
      exact hfnone t ht
    · intro q hq a ha
      obtain ⟨t, ht, he⟩ := hat q hq a ha
      exact ⟨t, List.mem_append_left _ ht, he⟩
    · intro t ht
      rcases List.mem_append.mp ht with hmem | hmem
      · exact hagg t hmem
      · rw [List.mem_singleton] at hmem
        subst hmem
        have hzero : ∀ f : ScoreData → Int, answersSum g.questions n f = 0 := by
          intro f
          unfold answersSum
          apply List.sum_eq_zero
          intro x hx
          rw [List.mem_map] at hx
          obtain ⟨q, hq, rfl⟩ := hx
          unfold qFilterSum
          have hfe : q.answers.filter (fun a => eqCI a.team_name n) = [] := by
            apply List.filter_eq_nil_iff.mpr
            intro a ha hcon
            obtain ⟨t, ht, he⟩ := hat q hq a ha
            have hx1 : lowerStr t.team_name = lowerStr a.team_name :=
              (eqCI_true_iff _ _).mp he
            have hx2 : lowerStr a.team_name = lowerStr n :=
              (eqCI_true_iff _ _).mp hcon
            have := hfnone t ht
            rw [eqCI_false_iff] at this
            exact this (hx1.trans hx2)
          rw [hfe]
          rfl
        exact ⟨(hzero _).symm, (hzero _).symm, (hzero _).symm⟩

/-! ### Override points are untouched by everything except
`override_team_score` -/

/-- Every team record of `T'` either descends from a record of `T` with
the same name and the same `override_points`, or is a fresh team whose
name matches nothing in `T`. -/
def teamsOverrideStable (T T' : List TeamData) : Prop :=
  ∀ t' ∈ T', (∃ t ∈ T, t.team_name = t'.team_name ∧
      t.score.override_points = t'.score.override_points) ∨
    (∀ t ∈ T, eqCI t.team_name t'.team_name = false)

lemma stable_refl (T : List TeamData) : teamsOverrideStable T T :=
  fun t' ht' => Or.inl ⟨t', ht', rfl, rfl⟩

lemma overridePreserved_of_stable (g g' : Game)
    (hdist : namesCIDistinct (g.teams.map TeamData.team_name))
    (hstab : teamsOverrideStable g.teams g'.teams) :
    overridePreserved g g' := by
  intro t ht t' ht' he
  rcases hstab t' ht' with ⟨t0, ht0, hname, hov⟩ | hfresh
  · have he0 : eqCI t.team_name t0.team_name = true := by
      rw [eqCI_true_iff] at he ⊢
      rw [hname]
      exact he
    obtain ⟨i, hi, hit⟩ := mem_getD_of_mem g.teams t dTeam ht
    obtain ⟨j, hj, hjt⟩ := mem_getD_of_mem g.teams t0 dTeam ht0
    by_cases hij : i = j
    · subst hij
      have htt0 : t = t0 := by rw [← hit, ← hjt]
      rw [← hov, htt0]
    · have hpair := namesCIDistinct_pair _ hdist i j
        (by simpa using hi) (by simpa using hj) hij
      rw [getD_map_name _ _ hi, getD_map_name _ _ hj, hit, hjt] at hpair
      rw [he0] at hpair
      exact Bool.noConfusion hpair
  · have := hfresh t ht
    rw [this] at he
    exact Bool.noConfusion he

lemma stable_of_updateFirst (T : List TeamData) (p : TeamData → Bool)
    (f : TeamData → TeamData)
    (hf : ∀ t, (f t).team_name = t.team_name ∧
      (f t).score.override_points = t.score.override_points) :
    teamsOverrideStable T (updateFirst p f T) := by
  intro t' ht'
  left
  rcases updateFirst_mem p f T t' ht' with hm | ⟨y, hy, rfl⟩
  · exact ⟨t', hm, rfl, rfl⟩
  · exact ⟨y, hy, (hf y).1.symm, (hf y).2.symm⟩

lemma stable_foldl_recalc (g0 : Game) (T : List TeamData) (S : List String)
    (hT : g0.teams = T)
    (hdist : namesCIDistinct (T.map TeamData.team_name)) :
    teamsOverrideStable T (S.foldl Game.recalculate_team_score g0).teams := by
  subst hT
  intro t' ht'
  left
  obtain ⟨k, hk, hkt⟩ := mem_getD_of_mem _ t' dTeam ht'
  have hkg : k < g0.teams.length := by
    rw [foldl_recalc_teams_length] at hk
    exact hk
  refine ⟨g0.teams.getD k dTeam, getD_mem _ _ hkg _, ?_, ?_⟩
  · rw [← hkt, foldl_recalc_teams_getD S g0 k hkg hdist]
    split
    · exact (recalcScore_name _ _ _).symm
    · rfl
  · rw [← hkt, foldl_recalc_teams_getD S g0 k hkg hdist]
    split
    · exact (recalcScore_override _ _ _).symm
    · rfl

lemma stable_recalc_then_foldl (g0 : Game) (T : List TeamData) (tn : String)
    (S : List String) (hT : g0.teams = T)
    (hdist : namesCIDistinct (T.map TeamData.team_name)) :
    teamsOverrideStable T (S.foldl Game.recalculate_team_score
      (g0.recalculate_team_score tn)).teams :=
  stable_foldl_recalc g0 T (tn :: S) hT hdist

lemma stable_add_team (g : Game) (n : String) (c : TeamColor)
    (m : List String) :
    teamsOverrideStable g.teams (g.add_team n c m).teams := by
  unfold Game.add_team
  split
  · exact stable_of_updateFirst _ _ _ (fun t => ⟨rfl, rfl⟩)
  · rename_i hnone
    intro t' ht'
    rcases List.mem_append.mp ht' with hm | hm
    · exact Or.inl ⟨t', hm, rfl, rfl⟩
    · rw [List.mem_singleton] at hm
      subst hm
      right
      intro t ht
      have hfind : g.teams.find? (fun t => eqCI t.team_name n) = none := by
        cases hf : g.teams.find? (fun t => eqCI t.team_name n) with
        | none => rfl
        | some t0 =>
            exact absurd (by rw [show g.find_team n = some t0 from hf]; rfl)
              hnone
      have := List.find?_eq_none.mp hfind t ht
      cases he : eqCI t.team_name n with
      | true => exact absurd he this
      | false => rfl

lemma stable_add_answer (g : Game) (tn text : String)
    (hdist : namesCIDistinct (g.teams.map TeamData.team_name)) :
    teamsOverrideStable g.teams (g.add_answer tn text).1.teams := by
  by_cases hany :
      (g.currentQuestion.answers.any (fun a => eqCI a.team_name tn)) = true
  · simp only [Game.add_answer, if_pos hany]
    exact stable_refl g.teams
  · simp only [Game.add_answer, if_neg hany]
    split
    · exact stable_refl g.teams
    · split
      · rw [foldl_recalc_if_eq_filter tn]
        exact stable_recalc_then_foldl _ g.teams tn _
          (recalc_speed_bonuses_teams _ _) hdist
      · exact stable_refl g.teams

lemma stable_score_answer (g : Game) (qn : Nat) (tn : String) (sc : ScoreData)
    (hdist : namesCIDistinct (g.teams.map TeamData.team_name)) :
    teamsOverrideStable g.teams (g.score_answer qn tn sc).1.teams := by
  by_cases hge : qn - 1 ≥ g.questions.length
  · simp only [Game.score_answer, if_pos hge]
    exact stable_refl g.teams
  · simp only [Game.score_answer, if_neg hge]
    cases hfi : (g.questions.getD (qn - 1) initialQuestion).answers.findIdx?
        (fun a => eqCI a.team_name tn) with
    | none => exact stable_refl g.teams
    | some aidx =>
        dsimp only
        split
        · exact stable_foldl_recalc _ g.teams _
            (recalc_speed_bonuses_teams _ _) hdist
        · exact stable_foldl_recalc _ g.teams _
            (recalc_speed_bonuses_teams _ _) hdist

/-- No operation other than `overrideTeamScore` changes any existing
team's `override_points` (fresh teams aside, whose names collide with no
existing team). -/
lemma stable_applyOp (g : Game) (op : GameOp) (h : Inv g)
    (hop : op.isOverride = false) :
    teamsOverrideStable g.teams (applyGameOp op g).teams := by
  cases op with
  | addTeam n c m => exact stable_add_team g n c m
  | addAnswer n t => exact stable_add_answer g n t h.2.2.1
  | scoreAnswer qn n s => exact stable_score_answer g qn n s h.2.2.1
  | clearAnswerScore qn n =>
      exact stable_score_answer g qn n ScoreData.new h.2.2.1
  | overrideTeamScore n p => exact absurd hop (by simp [GameOp.isOverride])
  | nextQuestion =>
      unfold applyGameOp Game.next_question Game.stop_timer
      dsimp only
      split
      · exact stable_refl g.teams
      · exact stable_refl g.teams
  | prevQuestion =>
      unfold applyGameOp Game.prev_question
      by_cases hle : g.current_question_number ≤ 1
      · rw [if_pos hle]
        exact stable_refl g.teams
      · rw [if_neg hle]
        exact stable_refl g.teams
  | updateGameSettings s =>
      unfold applyGameOp Game.update_game_settings
      dsimp only
      split
      · exact stable_refl g.teams
      · exact stable_refl g.teams
  | updateQuestionSettings qn td qp bi k sb =>
      unfold applyGameOp
      dsimp only
      cases hres : g.update_question_settings qn td qp bi k sb with
      | error e => exact stable_refl g.teams
      | ok g' =>
          have hteams : g'.teams = g.teams := by
            unfold Game.update_question_settings at hres
            dsimp only at hres
            by_cases hidx : qn - 1 ≥ g.questions.length
            · rw [if_pos hidx] at hres
              exact absurd hres (by simp)
            · rw [if_neg hidx] at hres
              by_cases hha : (g.questions.getD (qn - 1)
                  initialQuestion).has_answers = true
              · rw [if_pos hha] at hres
                exact absurd hres (by simp)
              · rw [if_neg hha] at hres
                split at hres <;> (injection hres with hres; rw [← hres])
          rw [hteams]
          exact stable_refl g.teams
  | updateTypeSpecificSettings qn cfg =>
      unfold applyGameOp
      dsimp only
      cases hres : g.update_type_specific_settings qn cfg with
      | none => exact stable_refl g.teams
      | some r =>
          cases r with
          | error e => exact stable_refl g.teams
          | ok g' =>
              have hteams : g'.teams = g.teams := by
                unfold Game.update_type_specific_settings at hres
                dsimp only at hres
                cases hq? : g.questions[qn - 1]? with
                | none =>
                    rw [hq?] at hres
                    exact Option.noConfusion hres
                | some question =>
                    rw [hq?] at hres
                    dsimp only at hres
                    by_cases hha : question.has_answers = true
                    · rw [if_pos hha] at hres
                      injection hres with hres
                      exact absurd hres (by simp)
                    · rw [if_neg hha] at hres
                      by_cases hk : cfg.kind ≠ question.question_kind
                      · rw [if_pos hk] at hres
                        injection hres with hres
                        exact absurd hres (by simp)
                      · rw [if_neg hk] at hres
                        injection hres with hres
                        injection hres with hres
                        rw [← hres]
              rw [hteams]
              exact stable_refl g.teams

/-! ### Assembly -/

/-- One step of any operation preserves the invariant (with the handler
precondition for `addAnswer`). -/
lemma inv_applyOp (g : Game) (op : GameOp) (h : Inv g)
    (hside : ∀ n t, op = .addAnswer n t →
      ∃ tm ∈ g.teams, eqCI tm.team_name n = true) :
    Inv (applyGameOp op g) := by
  cases op with
  | addTeam n c m => exact inv_add_team g n c m h
  | addAnswer n t => exact inv_add_answer g n t h (hside n t rfl)
  | scoreAnswer qn n s => exact inv_score_answer g qn n s h
  | clearAnswerScore qn n => exact inv_score_answer g qn n ScoreData.new h
  | overrideTeamScore n p => exact inv_override_team_score g n p h
  | nextQuestion => exact inv_next_question g h
  | prevQuestion => exact inv_prev_question g h
  | updateGameSettings s => exact inv_update_game_settings g s h
  | updateQuestionSettings qn td qp bi k sb =>
      exact inv_update_question_settings g qn td qp bi k sb h
  | updateTypeSpecificSettings qn cfg =>
      exact inv_update_type_specific_settings g qn cfg h

lemma inv_reachable : ∀ g, GameReachable g → Inv g := by
  intro g hg
  induction hg with
  | init code => exact inv_init code
  | step g op hr hside ih => exact inv_applyOp g op ih hside

lemma override_applyOp (g : Game) (op : GameOp) (h : Inv g)
    (hop : op.isOverride = false) :
    overridePreserved g (applyGameOp op g) :=
  overridePreserved_of_stable g _ h.2.2.1 (stable_applyOp g op h hop)

/-- C5: in every game state reachable through the game-model operations
(team joins, `addAnswer` with the handler's joined-team precondition,
`scoreAnswer`, `clearAnswerScore`, `overrideTeamScore`, question
navigation, and the three settings updates), every team record's
aggregate `questionPoints` / `bonusPoints` / `speedBonusPoints` equal the
sums of the corresponding fields over that team's answers (matched
case-insensitively) across all questions (together with the supporting
invariants: a valid current-question index, case-insensitively
duplicate-free answer and team names, and every answer belonging to a
joined team); and no operation other than `overrideTeamScore` modifies
any existing team's `overridePoints`. -/
theorem team_aggregate_invariant :
    (∀ g, GameReachable g → Inv g) ∧
    (∀ (g : Game) (op : GameOp), GameReachable g → op.isOverride = false →
      overridePreserved g (applyGameOp op g)) :=
  ⟨inv_reachable,
   fun g op hg hop => override_applyOp g op (inv_reachable g hg) hop⟩

/-- Witness for C5: the invariant at a fresh game after a team joins, and
override preservation across a `nextQuestion` step. -/
theorem team_aggregate_invariant_witness :
    Inv ((Game.new "ABCD").add_team "Alpha" demoColor []) ∧
    overridePreserved (Game.new "ABCD")
      (applyGameOp .nextQuestion (Game.new "ABCD")) :=
  ⟨team_aggregate_invariant.1 _
      (GameReachable.step (Game.new "ABCD") (.addTeam "Alpha" demoColor [])
        (GameReachable.init "ABCD") (fun n t ht => GameOp.noConfusion ht)),
   team_aggregate_invariant.2 (Game.new "ABCD") .nextQuestion
      (GameReachable.init "ABCD") rfl⟩

end Trivia
